import Mathlib

/-!
Shallow embedding of `scripts/collect_github_stats.py` (Traffic_Collector).

The script pulls GitHub traffic and release metrics, appends them to
append-only CSV tables guarded by natural-key deduplication, and rebuilds
three derived outputs (summary.csv, monthly.csv, summary.json) each run.

Modelling conventions:
  - Strings are manipulated as `List Char` where the Python code performs
    splitting and stripping; this keeps all proofs as list inductions.
  - CSV files are modelled as a header plus a list of rows of string values
    (the `csv` module round-trips these faithfully for this script).
  - The typed pipeline state stores one `Option (List Row)` per raw table,
    `none` standing for a file that does not exist yet.
  - `requests` calls are modelled by an `Api` record of functions returning
    `Except String payload`; an exception is an `.error`.
  - `datetime.utcnow` is a `today : String` parameter threaded through.
-/

namespace TrafficCollector

/-! ### Character-list string utilities (model of Python str operations) -/

/-- Model of Python `s.split(sep, 1)` restricted to the found case: split a
character list at the first occurrence of `sep`, returning the parts before
and after it, or `none` when `sep` does not occur. -/
def splitFirst (sep : Char) : List Char → Option (List Char × List Char)
  | [] => none
  | c :: cs =>
    if c = sep then some ([], cs)
    else (splitFirst sep cs).map (fun p => (c :: p.1, p.2))

/-- Model of finding the first occurrence of a nonempty pattern in a character
list: returns the part before the match and the part after it. -/
def splitSeq (pat : List Char) : List Char → Option (List Char × List Char)
  | [] => none
  | c :: cs =>
    if (c :: cs).take pat.length = pat then some ([], (c :: cs).drop pat.length)
    else (splitSeq pat cs).map (fun p => (c :: p.1, p.2))

/-- Model of Python `s.strip("/")`: drop leading and trailing slash characters. -/
def stripSlashes (s : List Char) : List Char :=
  ((s.dropWhile (· = '/')).reverse.dropWhile (· = '/')).reverse

/-- Model of the fragment/query cutoff performed by `urllib.parse`: keep the
characters before the first `#` or `?`. -/
def cutFragQuery (s : List Char) : List Char :=
  s.takeWhile (fun c => c ≠ '#' ∧ c ≠ '?')

/-- Model of `urllib.parse.urlparse(raw).path` for the URL shapes this script
receives (strings that begin with `http`): cut off fragment and query, then
if `://` occurs the path is everything from the first slash after the
authority (empty if there is none), otherwise everything after the scheme
colon (or the whole string when there is no colon). -/
def urlparsePath (s : List Char) : List Char :=
  match splitSeq ['/', '/'] (cutFragQuery s) with
  | some (_, rest) =>
    match splitFirst '/' rest with
    | some (_, p) => '/' :: p
    | none => []
  | none =>
    match splitFirst ':' (cutFragQuery s) with
    | some (_, p) => p
    | none => cutFragQuery s

/-- Embedding of `parse_repo`: returns the list produced by the final
`split("/", 1)` (one element when there is no slash, two otherwise), as the
Python function does. -/
def parse_repo (raw : String) : List String :=
  let cs := raw.toList
  let body :=
    if cs.take 4 = "http".toList then stripSlashes (urlparsePath cs)
    else cs
  match splitFirst '/' body with
  | some (a, b) => [String.mk a, String.mk b]
  | none => [String.mk body]

/-- Embedding of the unpacking `owner, repo = parse_repo(raw)` in `main`:
succeeds exactly when `parse_repo` returned two components, and the
`ValueError` from a failed unpack propagates (modelled as `none`). -/
def parseRepoPair (raw : String) : Option (String × String) :=
  match parse_repo raw with
  | [a, b] => some (a, b)
  | _ => none

/-! ### Basic lemmas about the splitting utilities -/

theorem splitFirst_eq_none_of_not_mem (sep : Char) :
    ∀ s : List Char, sep ∉ s → splitFirst sep s = none := by
  intro s h
  induction s with
  | nil => rfl
  | cons c cs ih =>
    simp only [List.mem_cons, not_or] at h
    simp only [splitFirst, if_neg (Ne.symm h.1), ih h.2, Option.map_none']

theorem splitFirst_parts_subset (sep : Char) :
    ∀ s a b, splitFirst sep s = some (a, b) →
      (∀ c ∈ a, c ∈ s) ∧ (∀ c ∈ b, c ∈ s) := by
  intro s
  induction s with
  | nil => intro a b h; simp [splitFirst] at h
  | cons c cs ih =>
    intro a b h
    simp only [splitFirst] at h
    split at h
    · cases h
      refine ⟨fun x hx => by simp at hx, fun x hx => List.mem_cons_of_mem _ hx⟩
    · cases hsf : splitFirst sep cs with
      | none => rw [hsf] at h; simp at h
      | some p =>
        rw [hsf] at h
        simp only [Option.map_some'] at h
        cases h
        obtain ⟨ha, hb⟩ := ih p.1 p.2 (by rw [hsf])
        constructor
        · intro x hx
          rcases List.mem_cons.mp hx with h1 | h2
          · exact h1 ▸ List.mem_cons_self _ _
          · exact List.mem_cons_of_mem _ (ha x h2)
        · intro x hx; exact List.mem_cons_of_mem _ (hb x hx)

theorem splitSeq_eq_none_of_not_mem (pat : List Char) (c0 : Char)
    (hc0 : c0 ∈ pat) : ∀ s : List Char, c0 ∉ s → splitSeq pat s = none := by
  intro s
  induction s with
  | nil => intro _; rfl
  | cons c cs ih =>
    intro h
    simp only [List.mem_cons, not_or] at h
    have hcond : ¬((c :: cs).take pat.length = pat) := by
      intro heq
      have hmem : c0 ∈ (c :: cs).take pat.length := by rw [heq]; exact hc0
      have : c0 ∈ c :: cs := List.take_subset _ _ hmem
      rcases List.mem_cons.mp this with h1 | h2
      · exact h.1 h1
      · exact h.2 h2
    simp only [splitSeq, if_neg hcond, ih h.2, Option.map_none']

theorem stripSlashes_subset (s : List Char) : ∀ c ∈ stripSlashes s, c ∈ s := by
  intro c hc
  unfold stripSlashes at hc
  have h1 := List.mem_reverse.mp hc
  have h2 := List.dropWhile_subset (p := fun c => c = '/')
    (l := (s.dropWhile (· = '/')).reverse) h1
  have h3 := List.mem_reverse.mp h2
  exact List.dropWhile_subset _ h3

theorem urlparsePath_no_slash (s : List Char) (h : '/' ∉ s) :
    '/' ∉ urlparsePath s := by
  unfold urlparsePath
  intro hc
  have htno : '/' ∉ cutFragQuery s := fun hx => h (List.takeWhile_subset _ hx)
  rw [splitSeq_eq_none_of_not_mem ['/', '/'] '/' (by simp) _ htno] at hc
  cases hsf : splitFirst ':' (cutFragQuery s) with
  | some q =>
    rw [hsf] at hc
    exact htno ((splitFirst_parts_subset _ _ _ _ hsf).2 '/' hc)
  | none =>
    rw [hsf] at hc
    exact htno hc

theorem stripSlashes_no_slash (s : List Char) (h : '/' ∉ s) :
    '/' ∉ stripSlashes s := fun hc => h (stripSlashes_subset s _ hc)

/-- When the input contains no slash character, `parse_repo` returns a single
component, hence the unpack in `main` fails. -/
theorem parseRepoPair_none_of_no_slash (raw : String) (h : '/' ∉ raw.toList) :
    parseRepoPair raw = none := by
  unfold parseRepoPair parse_repo
  by_cases hh : raw.toList.take 4 = "http".toList
  · simp only [if_pos hh]
    have hbody : '/' ∉ stripSlashes (urlparsePath raw.toList) :=
      stripSlashes_no_slash _ (urlparsePath_no_slash _ h)
    rw [splitFirst_eq_none_of_not_mem _ _ hbody]
  · simp only [if_neg hh]
    rw [splitFirst_eq_none_of_not_mem _ _ h]

theorem string_toList_append (s t : String) :
    (s ++ t).toList = s.toList ++ t.toList := by
  cases s; cases t; rfl

theorem splitFirst_append (a b : List Char) (h : '/' ∉ a) :
    splitFirst '/' (a ++ '/' :: b) = some (a, b) := by
  induction a with
  | nil => simp [splitFirst]
  | cons c cs ih =>
    simp only [List.mem_cons, not_or] at h
    simp only [List.cons_append, splitFirst, if_neg (Ne.symm h.1)]
    rw [show cs.append ('/' :: b) = cs ++ '/' :: b from rfl, ih h.2,
      Option.map_some']

/-! ### CSV file model: key-store loader and flat-table appender -/

/-- Model of a CSV table on disk: the header line and the data rows, each row
a list of string values aligned with the header (the shape the `csv` module
reads and writes for this script). -/
structure CsvFile where
  header : List String
  rows : List (List String)
deriving DecidableEq

/-- Model of `csv.DictReader` field access `row.get(k, "")`: the value paired
with `k` by zipping the header with the row values, or the empty string when
`k` is not a header field. -/
def rowGet (header vals : List String) (k : String) : String :=
  ((header.zip vals).lookup k).getD ""

/-- Embedding of `load_existing_keys`: an absent file yields no keys;
otherwise one key tuple per data row, projecting the key fields in order. -/
def load_existing_keys (file : Option CsvFile) (key_fields : List String) :
    List (List String) :=
  match file with
  | none => []
  | some f => f.rows.map (fun vals => key_fields.map (rowGet f.header vals))

/-- Model of the file system touched by `append_csv`: the set of directories
that exist and a partial map from paths to CSV files. -/
structure FS where
  dirs : List String
  files : String → Option CsvFile

/-- Model of `os.path.dirname`: the portion of the path before the last
slash, or the empty string when there is no slash. -/
def dirname (path : String) : String :=
  match splitFirst '/' path.toList.reverse with
  | some (_, rest) => String.mk rest.reverse
  | none => ""

/-- Model of `csv.DictWriter.writerow`: serialise the row dict in field-name
order, absent keys becoming the empty string. -/
def writeRowVals (fieldnames : List String) (row : List (String × String)) :
    List String :=
  fieldnames.map (fun k => (row.lookup k).getD "")

/-- Embedding of `append_csv`: create the parent directory if absent; if the
file does not exist, create it with a header line and the single row;
otherwise append the single row after the existing content. -/
def append_csv (fs : FS) (path : String) (fieldnames : List String)
    (row : List (String × String)) : FS :=
  let dirs := if dirname path ∈ fs.dirs then fs.dirs else dirname path :: fs.dirs
  match fs.files path with
  | none =>
    { dirs := dirs
      files := fun q =>
        if q = path then some ⟨fieldnames, [writeRowVals fieldnames row]⟩
        else fs.files q }
  | some f =>
    { dirs := dirs
      files := fun q =>
        if q = path then some ⟨f.header, f.rows ++ [writeRowVals fieldnames row]⟩
        else fs.files q }

theorem rowGet_not_mem (header vals : List String) (k : String)
    (h : k ∉ header) : rowGet header vals k = "" := by
  unfold rowGet
  have : (header.zip vals).lookup k = none := by
    induction header generalizing vals with
    | nil => simp [List.lookup]
    | cons a as ih =>
      cases vals with
      | nil => simp [List.lookup]
      | cons v vs =>
        simp only [List.mem_cons, not_or] at h
        simp only [List.zip_cons_cons, List.lookup]
        rw [beq_false_of_ne h.1]
        exact ih vs h.2
  rw [this]; rfl

/-! ### Typed raw tables and the five collectors -/

/-- Model of Python slicing `s[:n]`: the first `n` characters of the string
(defined through the character list to keep it transparent to the kernel). -/
def strTake (s : String) (n : Nat) : String :=
  String.mk (s.toList.take n)

/-- Lexicographic strict comparison of character lists, the order Python uses
to compare strings (by code point). -/
def charListLt : List Char → List Char → Bool
  | [], [] => false
  | [], _ :: _ => true
  | _ :: _, [] => false
  | a :: as, b :: bs =>
    if a < b then true else if b < a then false else charListLt as bs

/-- Model of Python string `<`. -/
def strLtB (a b : String) : Bool := charListLt a.toList b.toList

/-- Model of Python string `<=`. -/
def strLeB (a b : String) : Bool := !(strLtB b a)

/-- Model of Python `max(a, b)` on strings: the second argument wins only
when it is strictly larger. -/
def strMax (a b : String) : String := if strLtB a b then b else a

/-- Propositional form of `strLeB`, the comparison `sorted` uses on repo
names. -/
def strLeP (a b : String) : Prop := strLeB a b = true

instance : DecidableRel strLeP := fun a b =>
  inferInstanceAs (Decidable (strLeB a b = true))

theorem charListLt_iff (x : List Char) :
    ∀ y, charListLt x y = true ↔ List.Lex (· < ·) x y := by
  induction x with
  | nil =>
    intro y
    cases y with
    | nil =>
      simp only [charListLt, Bool.false_eq_true, false_iff]
      intro h; cases h
    | cons b bs =>
      simp only [charListLt, true_iff]
      exact List.Lex.nil
  | cons a as ih =>
    intro y
    cases y with
    | nil =>
      simp only [charListLt, Bool.false_eq_true, false_iff]
      intro h; cases h
    | cons b bs =>
      simp only [charListLt]
      by_cases hab : a < b
      · simp only [if_pos hab, true_iff]
        exact List.Lex.rel hab
      · rw [if_neg hab]
        by_cases hba : b < a
        · simp only [if_pos hba, Bool.false_eq_true, false_iff]
          intro h
          cases h with
          | rel hlt => exact hab hlt
          | cons h3 => exact absurd hba (lt_irrefl a)
        · have heq : a = b := le_antisymm (le_of_not_lt hba) (le_of_not_lt hab)
          subst heq
          rw [if_neg hba, ih bs]
          constructor
          · intro h; exact List.Lex.cons h
          · intro h
            cases h with
            | rel hlt => exact absurd hlt hab
            | cons h3 => exact h3

theorem strLtB_iff (a b : String) : strLtB a b = true ↔ a < b := by
  rw [String.lt_iff_toList_lt]
  exact charListLt_iff a.toList b.toList

theorem strLeB_iff (a b : String) : strLeB a b = true ↔ a ≤ b := by
  unfold strLeB
  cases hcase : strLtB b a
  · have h : ¬b < a := fun hlt => by
      rw [← strLtB_iff] at hlt
      rw [hcase] at hlt
      cases hlt
    exact iff_of_true rfl (le_of_not_lt h)
  · have h : b < a := (strLtB_iff b a).mp hcase
    exact iff_of_false (by simp) (not_le_of_lt h)

theorem strLeP_iff (a b : String) : strLeP a b ↔ a ≤ b := strLeB_iff a b

theorem strMax_eq_max (a b : String) : strMax a b = max a b := by
  unfold strMax
  cases hcase : strLtB a b
  · have h : ¬a < b := fun hlt => by
      rw [← strLtB_iff] at hlt
      rw [hcase] at hlt
      cases hlt
    rw [if_neg (by simp), max_eq_left (le_of_not_lt h)]
  · have h : a < b := (strLtB_iff a b).mp hcase
    rw [if_pos rfl, max_eq_right h.le]

theorem foldl_strMax_eq (l : List String) (d : String) :
    l.foldl strMax d = l.foldl max d := by
  induction l generalizing d with
  | nil => rfl
  | cons a l ih => rw [List.foldl_cons, List.foldl_cons, strMax_eq_max, ih]

instance : IsTotal String strLeP where
  total a b := by
    rcases le_total a b with h | h
    · exact Or.inl ((strLeP_iff a b).mpr h)
    · exact Or.inr ((strLeP_iff b a).mpr h)

instance : IsTrans String strLeP where
  trans a b c hab hbc :=
    (strLeP_iff a c).mpr (le_trans ((strLeP_iff a b).mp hab)
      ((strLeP_iff b c).mp hbc))

/-- Natural-key tuples, as produced by `load_existing_keys`: the values of the
key fields in order. -/
abbrev Key := List String

/-- Upstream traffic bucket, as returned by the views and clones endpoints:
`timestamp`, `count`, `uniques`. -/
structure TrafficItem where
  timestamp : String
  count : Nat
  uniques : Nat
deriving DecidableEq, Repr

/-- Upstream popular-referrers item. -/
structure RefItem where
  referrer : String
  count : Nat
  uniques : Nat
deriving DecidableEq, Repr

/-- Upstream popular-paths item. -/
structure PathItem where
  path : String
  title : String
  count : Nat
  uniques : Nat
deriving DecidableEq, Repr

/-- Upstream release asset. -/
structure Asset where
  name : String
  download_count : Nat
deriving DecidableEq, Repr

/-- Upstream release with its assets. -/
structure Release where
  tag_name : String
  assets : List Asset
deriving DecidableEq, Repr

/-- Row of `stats/traffic_views.csv`. -/
structure ViewRow where
  date : String
  repo : String
  views : Nat
  unique_visitors : Nat
deriving DecidableEq, Repr

/-- Row of `stats/traffic_clones.csv`. -/
structure CloneRow where
  date : String
  repo : String
  clones : Nat
  unique_cloners : Nat
deriving DecidableEq, Repr

/-- Row of `stats/traffic_referrers.csv`. -/
structure ReferrerRow where
  date : String
  repo : String
  referrer : String
  views : Nat
  unique_visitors : Nat
deriving DecidableEq, Repr

/-- Row of `stats/traffic_paths.csv`. -/
structure PathRow where
  date : String
  repo : String
  path : String
  title : String
  views : Nat
  unique_visitors : Nat
deriving DecidableEq, Repr

/-- Row of `stats/releases_daily.csv`. -/
structure ReleaseRow where
  date : String
  repo : String
  tag : String
  asset_name : String
  download_count : Nat
deriving DecidableEq, Repr

/-- Key projection used when `load_existing_keys` runs on the views table
with key fields `date, repo`. -/
def viewRowKey (r : ViewRow) : Key := [r.date, r.repo]

/-- Key projection for the clones table (`date, repo`). -/
def cloneRowKey (r : CloneRow) : Key := [r.date, r.repo]

/-- Key projection for the referrers table (`date, repo, referrer`). -/
def referrerRowKey (r : ReferrerRow) : Key := [r.date, r.repo, r.referrer]

/-- Key projection for the paths table (`date, repo, path`). -/
def pathRowKey (r : PathRow) : Key := [r.date, r.repo, r.path]

/-- Key projection for the releases table (`date, repo, tag, asset_name`). -/
def releaseRowKey (r : ReleaseRow) : Key := [r.date, r.repo, r.tag, r.asset_name]

/-- Typed form of `load_existing_keys` on an in-memory table: one key tuple
per row; an absent file yields no keys. -/
def loadKeys (t : Option (List ρ)) (rowKey : ρ → Key) : List Key :=
  (t.getD []).map rowKey

/-- Common shape of the five collector loops: walk the upstream items in
order; an item whose natural key is in the key set is skipped, otherwise its
row is appended to the table (`append_csv` creating the file on first write),
its key is added to the in-memory key set, and the added counter increases. -/
def collectGen (keyOf : α → Key) (mkRow : α → ρ) :
    List α → Option (List ρ) → List Key → Nat → Option (List ρ) × List Key × Nat
  | [], t, keys, added => (t, keys, added)
  | a :: rest, t, keys, added =>
    if keyOf a ∈ keys then collectGen keyOf mkRow rest t keys added
    else collectGen keyOf mkRow rest (some (t.getD [] ++ [mkRow a]))
      (keyOf a :: keys) (added + 1)

/-- Embedding of `collect_views`: date is the first 10 characters of the
timestamp, key `(date, owner/repo)`. -/
def collect_views (owner repo : String) (items : List TrafficItem)
    (t : Option (List ViewRow)) (keys : List Key) :
    Option (List ViewRow) × List Key × Nat :=
  collectGen
    (fun v => [strTake v.timestamp 10, owner ++ "/" ++ repo])
    (fun v => ⟨strTake v.timestamp 10, owner ++ "/" ++ repo, v.count, v.uniques⟩)
    items t keys 0

/-- Embedding of `collect_clones`: same shape as views, writing the clones
table. -/
def collect_clones (owner repo : String) (items : List TrafficItem)
    (t : Option (List CloneRow)) (keys : List Key) :
    Option (List CloneRow) × List Key × Nat :=
  collectGen
    (fun c => [strTake c.timestamp 10, owner ++ "/" ++ repo])
    (fun c => ⟨strTake c.timestamp 10, owner ++ "/" ++ repo, c.count, c.uniques⟩)
    items t keys 0

/-- Embedding of `collect_referrers`: items are stamped with the current UTC
date, key `(today, owner/repo, referrer)`. -/
def collect_referrers (today owner repo : String) (items : List RefItem)
    (t : Option (List ReferrerRow)) (keys : List Key) :
    Option (List ReferrerRow) × List Key × Nat :=
  collectGen
    (fun r => [today, owner ++ "/" ++ repo, r.referrer])
    (fun r => ⟨today, owner ++ "/" ++ repo, r.referrer, r.count, r.uniques⟩)
    items t keys 0

/-- Embedding of `collect_paths`: key `(today, owner/repo, path)`. -/
def collect_paths (today owner repo : String) (items : List PathItem)
    (t : Option (List PathRow)) (keys : List Key) :
    Option (List PathRow) × List Key × Nat :=
  collectGen
    (fun p => [today, owner ++ "/" ++ repo, p.path])
    (fun p => ⟨today, owner ++ "/" ++ repo, p.path, p.title, p.count, p.uniques⟩)
    items t keys 0

/-- Embedding of `collect_releases`: the nested loop over releases and their
assets, flattened in order; key `(today, owner/repo, tag, asset_name)`. -/
def collect_releases (today owner repo : String) (rels : List Release)
    (t : Option (List ReleaseRow)) (keys : List Key) :
    Option (List ReleaseRow) × List Key × Nat :=
  collectGen
    (fun p : String × Asset => [today, owner ++ "/" ++ repo, p.1, p.2.name])
    (fun p => ⟨today, owner ++ "/" ++ repo, p.1, p.2.name, p.2.download_count⟩)
    (rels.flatMap (fun rel => rel.assets.map (fun a => (rel.tag_name, a))))
    t keys 0

/-! ### Generic collector lemmas -/

theorem collectGen_keys_mono (keyOf : α → Key) (mkRow : α → ρ) :
    ∀ (items : List α) t keys n,
      keys ⊆ (collectGen keyOf mkRow items t keys n).2.1 := by
  intro items
  induction items with
  | nil => intro t keys n; exact fun k hk => hk
  | cons a rest ih =>
    intro t keys n
    simp only [collectGen]
    by_cases h : keyOf a ∈ keys
    · rw [if_pos h]; exact ih _ _ _
    · rw [if_neg h]
      exact fun k hk => ih _ _ _ (List.mem_cons_of_mem _ hk)

theorem collectGen_complete (keyOf : α → Key) (mkRow : α → ρ) :
    ∀ (items : List α) t keys n, ∀ a ∈ items,
      keyOf a ∈ (collectGen keyOf mkRow items t keys n).2.1 := by
  intro items
  induction items with
  | nil => intro t keys n a ha; simp at ha
  | cons b rest ih =>
    intro t keys n a ha
    simp only [collectGen]
    by_cases h : keyOf b ∈ keys
    · rw [if_pos h]
      rcases List.mem_cons.mp ha with h1 | h2
      · exact h1 ▸ collectGen_keys_mono keyOf mkRow rest t keys n h
      · exact ih _ _ _ a h2
    · rw [if_neg h]
      rcases List.mem_cons.mp ha with h1 | h2
      · exact h1 ▸ collectGen_keys_mono keyOf mkRow rest _ _ _
          (List.mem_cons_self _ _)
      · exact ih _ _ _ a h2

theorem collectGen_noop (keyOf : α → Key) (mkRow : α → ρ) :
    ∀ (items : List α) t keys n, (∀ a ∈ items, keyOf a ∈ keys) →
      collectGen keyOf mkRow items t keys n = (t, keys, n) := by
  intro items
  induction items with
  | nil => intro t keys n _; rfl
  | cons a rest ih =>
    intro t keys n h
    simp only [collectGen, if_pos (h a (List.mem_cons_self _ _))]
    exact ih _ _ _ (fun b hb => h b (List.mem_cons_of_mem _ hb))

theorem collectGen_append (keyOf : α → Key) (mkRow : α → ρ) (rowKey : ρ → Key)
    (hk : ∀ a, rowKey (mkRow a) = keyOf a) :
    ∀ (items : List α) t keys n, ∃ new,
      (collectGen keyOf mkRow items t keys n).1.getD [] = t.getD [] ++ new ∧
      (collectGen keyOf mkRow items t keys n).2.2 = n + new.length ∧
      (∀ r ∈ new, rowKey r ∉ keys) := by
  intro items
  induction items with
  | nil => intro t keys n; exact ⟨[], by simp [collectGen]⟩
  | cons a rest ih =>
    intro t keys n
    simp only [collectGen]
    by_cases h : keyOf a ∈ keys
    · rw [if_pos h]; exact ih t keys n
    · rw [if_neg h]
      obtain ⟨new, h1, h2, h3⟩ := ih (some (t.getD [] ++ [mkRow a]))
        (keyOf a :: keys) (n + 1)
      refine ⟨mkRow a :: new, ?_, ?_, ?_⟩
      · rw [h1]; simp
      · rw [h2]; simp [Nat.add_comm, Nat.add_assoc, Nat.add_left_comm]
      · intro r hr
        rcases List.mem_cons.mp hr with h4 | h5
        · rw [h4, hk]; exact h
        · intro hmem
          exact h3 r h5 (List.mem_cons_of_mem _ hmem)

theorem collectGen_inv (keyOf : α → Key) (mkRow : α → ρ) (rowKey : ρ → Key)
    (hk : ∀ a, rowKey (mkRow a) = keyOf a) :
    ∀ (items : List α) t keys n,
      (∀ k, k ∈ keys ↔ k ∈ loadKeys t rowKey) →
      (∀ k, k ∈ (collectGen keyOf mkRow items t keys n).2.1 ↔
        k ∈ loadKeys (collectGen keyOf mkRow items t keys n).1 rowKey) := by
  intro items
  induction items with
  | nil => intro t keys n h; exact h
  | cons a rest ih =>
    intro t keys n h
    simp only [collectGen]
    by_cases hmem : keyOf a ∈ keys
    · rw [if_pos hmem]; exact ih _ _ _ h
    · rw [if_neg hmem]
      apply ih
      intro k
      simp only [loadKeys, Option.getD_some, List.map_append, List.map_cons,
        List.map_nil, List.mem_append, List.mem_cons, hk]
      constructor
      · intro hin
        rcases hin with h1 | h2
        · exact Or.inr (Or.inl h1)
        · exact Or.inl ((h k).mp h2)
      · intro hin
        rcases hin with h1 | h2 | h3
        · exact Or.inr ((h k).mpr h1)
        · exact Or.inl h2
        · simp at h3

/-! ### Aggregators -/

/-- Value part of one `totals` entry in `generate_summary` (the defaultdict
default is all-zero counters and an empty last date). -/
structure STotals where
  total_views : Nat
  total_unique_visitors : Nat
  total_clones : Nat
  total_unique_cloners : Nat
  total_downloads : Nat
  last_date : String
deriving DecidableEq, Repr

/-- Default entry of the summary defaultdict. -/
def emptySTotals : STotals := ⟨0, 0, 0, 0, 0, ""⟩

/-- Row of `stats/summary.csv`. -/
structure SummaryRow where
  repo : String
  total_views : Nat
  total_unique_visitors : Nat
  total_clones : Nat
  total_unique_cloners : Nat
  total_downloads : Nat
  last_date : String
deriving DecidableEq, Repr

/-- Model of a Python defaultdict: the value function plus the keys in
insertion order. -/
def SMap := (String → STotals) × List String

/-- Record a key access on the summary defaultdict (a fresh key is appended
to the insertion order). -/
def touchKey (ks : List String) (k : String) : List String :=
  if k ∈ ks then ks else ks ++ [k]

/-- One iteration of the views loop in `generate_summary`. -/
def summaryViewsStep (m : SMap) (row : ViewRow) : SMap :=
  (fun s =>
    if s = row.repo then
      let t := m.1 row.repo
      { t with
        total_views := t.total_views + row.views
        total_unique_visitors := t.total_unique_visitors + row.unique_visitors
        last_date := strMax t.last_date row.date }
    else m.1 s,
   touchKey m.2 row.repo)

/-- One iteration of the clones loop in `generate_summary`. -/
def summaryClonesStep (m : SMap) (row : CloneRow) : SMap :=
  (fun s =>
    if s = row.repo then
      let t := m.1 row.repo
      { t with
        total_clones := t.total_clones + row.clones
        total_unique_cloners := t.total_unique_cloners + row.unique_cloners
        last_date := strMax t.last_date row.date }
    else m.1 s,
   touchKey m.2 row.repo)

/-- One iteration of the releases loop in `generate_summary`. -/
def summaryReleasesStep (m : SMap) (row : ReleaseRow) : SMap :=
  (fun s =>
    if s = row.repo then
      let t := m.1 row.repo
      { t with
        total_downloads := t.total_downloads + row.download_count
        last_date := strMax t.last_date row.date }
    else m.1 s,
   touchKey m.2 row.repo)

/-- Embedding of `generate_summary`: fold the three raw tables into the
defaultdict, then emit one row per repo, sorted by repo name. -/
def generate_summary (views : List ViewRow) (clones : List CloneRow)
    (rels : List ReleaseRow) : List SummaryRow :=
  let m0 : SMap := (fun _ => emptySTotals, [])
  let m1 := views.foldl summaryViewsStep m0
  let m2 := clones.foldl summaryClonesStep m1
  let m3 := rels.foldl summaryReleasesStep m2
  (m3.2.insertionSort strLeP).map (fun repo =>
    let t := m3.1 repo
    ⟨repo, t.total_views, t.total_unique_visitors, t.total_clones,
      t.total_unique_cloners, t.total_downloads, t.last_date⟩)

/-- Value part of one `buckets` entry in `generate_monthly`. -/
structure MTotals where
  views : Nat
  unique_visitors : Nat
  clones : Nat
  unique_cloners : Nat
  downloads : Nat
deriving DecidableEq, Repr

/-- Default entry of the monthly defaultdict. -/
def emptyMTotals : MTotals := ⟨0, 0, 0, 0, 0⟩

/-- Row of `stats/monthly.csv`. -/
structure MonthlyRow where
  repo : String
  month : String
  views : Nat
  unique_visitors : Nat
  clones : Nat
  unique_cloners : Nat
  downloads : Nat
deriving DecidableEq, Repr

/-- Defaultdict keyed by `(repo, month)` pairs. -/
def MMap := (String × String → MTotals) × List (String × String)

/-- Record a key access on the monthly defaultdict. -/
def touchPair (ks : List (String × String)) (k : String × String) :
    List (String × String) :=
  if k ∈ ks then ks else ks ++ [k]

/-- One iteration of the views loop in `generate_monthly`: bucket key is
`(repo, date[:7])`. -/
def monthlyViewsStep (m : MMap) (row : ViewRow) : MMap :=
  let k := (row.repo, strTake row.date 7)
  (fun s =>
    if s = k then
      let t := m.1 k
      { t with
        views := t.views + row.views
        unique_visitors := t.unique_visitors + row.unique_visitors }
    else m.1 s,
   touchPair m.2 k)

/-- One iteration of the clones loop in `generate_monthly`. -/
def monthlyClonesStep (m : MMap) (row : CloneRow) : MMap :=
  let k := (row.repo, strTake row.date 7)
  (fun s =>
    if s = k then
      let t := m.1 k
      { t with
        clones := t.clones + row.clones
        unique_cloners := t.unique_cloners + row.unique_cloners }
    else m.1 s,
   touchPair m.2 k)

/-- One iteration of the releases loop in `generate_monthly`. -/
def monthlyReleasesStep (m : MMap) (row : ReleaseRow) : MMap :=
  let k := (row.repo, strTake row.date 7)
  (fun s =>
    if s = k then
      let t := m.1 k
      { t with downloads := t.downloads + row.download_count }
    else m.1 s,
   touchPair m.2 k)

/-- Lexicographic order on `(repo, month)` pairs, as Python tuple comparison
sorts the bucket keys. -/
def pairLe (x y : String × String) : Prop :=
  x.1 < y.1 ∨ (x.1 = y.1 ∧ x.2 ≤ y.2)

instance : DecidableRel pairLe := fun x y => by
  unfold pairLe; infer_instance

instance : IsTotal (String × String) pairLe where
  total := by
    intro a b
    rcases lt_trichotomy a.1 b.1 with h | h | h
    · exact Or.inl (Or.inl h)
    · rcases le_total a.2 b.2 with h2 | h2
      · exact Or.inl (Or.inr ⟨h, h2⟩)
      · exact Or.inr (Or.inr ⟨h.symm, h2⟩)
    · exact Or.inr (Or.inl h)

instance : IsTrans (String × String) pairLe where
  trans := by
    intro a b c hab hbc
    rcases hab with h1 | ⟨h1, h1b⟩
    · rcases hbc with h2 | ⟨h2, _⟩
      · exact Or.inl (h1.trans h2)
      · exact Or.inl (h2 ▸ h1)
    · rcases hbc with h2 | ⟨h2, h2b⟩
      · exact Or.inl (h1 ▸ h2)
      · exact Or.inr ⟨h1.trans h2, h1b.trans h2b⟩

/-- Computable form of Python tuple comparison on `(repo, month)` pairs. -/
def pairLeB (x y : String × String) : Bool :=
  strLtB x.1 y.1 || (x.1 == y.1 && strLeB x.2 y.2)

/-- Propositional form of `pairLeB`, the comparison `sorted` uses on the
bucket keys. -/
def pairLeP (x y : String × String) : Prop := pairLeB x y = true

instance : DecidableRel pairLeP := fun x y =>
  inferInstanceAs (Decidable (pairLeB x y = true))

theorem pairLeP_iff (x y : String × String) : pairLeP x y ↔ pairLe x y := by
  unfold pairLeP pairLeB pairLe
  rw [Bool.or_eq_true, Bool.and_eq_true, strLtB_iff, strLeB_iff, beq_iff_eq]

instance : IsTotal (String × String) pairLeP where
  total a b := by
    rcases IsTotal.total (r := pairLe) a b with h | h
    · exact Or.inl ((pairLeP_iff a b).mpr h)
    · exact Or.inr ((pairLeP_iff b a).mpr h)

instance : IsTrans (String × String) pairLeP where
  trans a b c hab hbc :=
    (pairLeP_iff a c).mpr (IsTrans.trans (r := pairLe) a b c
      ((pairLeP_iff a b).mp hab) ((pairLeP_iff b c).mp hbc))

/-- Embedding of `generate_monthly`: fold the three raw tables into the
bucket defaultdict, then emit one row per `(repo, month)` bucket, sorted by
the pair. -/
def generate_monthly (views : List ViewRow) (clones : List CloneRow)
    (rels : List ReleaseRow) : List MonthlyRow :=
  let m0 : MMap := (fun _ => emptyMTotals, [])
  let m1 := views.foldl monthlyViewsStep m0
  let m2 := clones.foldl monthlyClonesStep m1
  let m3 := rels.foldl monthlyReleasesStep m2
  (m3.2.insertionSort pairLeP).map (fun k =>
    let t := m3.1 k
    ⟨k.1, k.2, t.views, t.unique_visitors, t.clones, t.unique_cloners,
      t.downloads⟩)

/-- Entry of the `daily_views` list in `summary.json`. -/
structure DailyView where
  date : String
  views : Nat
  unique : Nat
deriving DecidableEq, Repr

/-- Entry of the `daily_clones` list in `summary.json`. -/
structure DailyClone where
  date : String
  clones : Nat
  unique : Nat
deriving DecidableEq, Repr

/-- Entry of the `monthly` list in `summary.json`. -/
structure MonthlyEntry where
  month : String
  views : Nat
  clones : Nat
  downloads : Nat
deriving DecidableEq, Repr

/-- Per-repo object in `summary.json`. -/
structure RepoJson where
  total_views : Nat
  total_unique_visitors : Nat
  total_clones : Nat
  total_unique_cloners : Nat
  total_downloads : Nat
  daily_views : List DailyView
  daily_clones : List DailyClone
  monthly : List MonthlyEntry
deriving DecidableEq, Repr

/-- Top-level object of `summary.json`: the generation date and the repos
dict in insertion order. -/
structure SummaryJson where
  generated : String
  repos : List (String × RepoJson)
deriving DecidableEq, Repr

/-- Model of Python dict assignment `d[k] = v`: overwrite in place when the
key exists, append otherwise. -/
def dictInsert (m : List (String × RepoJson)) (k : String) (v : RepoJson) :
    List (String × RepoJson) :=
  if (m.lookup k).isSome then m.map (fun p => if p.1 = k then (k, v) else p)
  else m ++ [(k, v)]

/-- Model of the guarded mutation `if repo in d: mutate d[repo]`: apply `f`
to the entry with the given key, leave everything else unchanged. -/
def updateRepo (m : List (String × RepoJson)) (k : String)
    (f : RepoJson → RepoJson) : List (String × RepoJson) :=
  m.map (fun p => if p.1 = k then (p.1, f p.2) else p)

/-- Per-repo object built from one summary row, before the daily and monthly
lists are filled in. -/
def jsonFromSummaryRow (s : SummaryRow) : RepoJson :=
  ⟨s.total_views, s.total_unique_visitors, s.total_clones,
    s.total_unique_cloners, s.total_downloads, [], [], []⟩

/-- Embedding of `generate_json`: seed the repos dict from the summary rows,
then append the daily view, daily clone, and monthly rows of each repo that
is present in the dict (rows of absent repos are dropped). -/
def generate_json (today : String) (summary : List SummaryRow)
    (views : List ViewRow) (clones : List CloneRow)
    (monthly : List MonthlyRow) : SummaryJson :=
  let m0 := summary.foldl
    (fun m s => dictInsert m s.repo (jsonFromSummaryRow s)) []
  let m1 := views.foldl
    (fun m r => updateRepo m r.repo (fun j =>
      { j with daily_views :=
          j.daily_views ++ [⟨r.date, r.views, r.unique_visitors⟩] })) m0
  let m2 := clones.foldl
    (fun m r => updateRepo m r.repo (fun j =>
      { j with daily_clones :=
          j.daily_clones ++ [⟨r.date, r.clones, r.unique_cloners⟩] })) m1
  let m3 := monthly.foldl
    (fun m r => updateRepo m r.repo (fun j =>
      { j with monthly :=
          j.monthly ++ [⟨r.month, r.views, r.clones, r.downloads⟩] })) m2
  ⟨today, m3⟩

/-! ### Orchestrator -/

/-- The five upstream endpoints; an `.error` models an exception raised by
the HTTP layer (non-2xx status, timeout, …). -/
structure Api where
  views : String → String → Except String (List TrafficItem)
  clones : String → String → Except String (List TrafficItem)
  referrers : String → String → Except String (List RefItem)
  paths : String → String → Except String (List PathItem)
  releases : String → String → Except String (List Release)

/-- In-run state: the five raw tables plus the five in-memory key sets of
`all_keys`. -/
structure RunSt where
  views : Option (List ViewRow)
  clones : Option (List CloneRow)
  referrers : Option (List ReferrerRow)
  paths : Option (List PathRow)
  releases : Option (List ReleaseRow)
  kviews : List Key
  kclones : List Key
  kreferrers : List Key
  kpaths : List Key
  kreleases : List Key
deriving DecidableEq, Repr

/-- One collector invocation under the orchestrator try/except: `Views`. -/
def stepViews (api : Api) (owner repo : String) (st : RunSt) : RunSt × String :=
  match api.views owner repo with
  | .error e => (st, "  Views: SKIP - " ++ e)
  | .ok items =>
    let r := collect_views owner repo items st.views st.kviews
    ({ st with views := r.1, kviews := r.2.1 },
      "  Views: " ++ toString r.2.2 ++ " new records")

/-- One collector invocation under the orchestrator try/except: `Clones`. -/
def stepClones (api : Api) (owner repo : String) (st : RunSt) : RunSt × String :=
  match api.clones owner repo with
  | .error e => (st, "  Clones: SKIP - " ++ e)
  | .ok items =>
    let r := collect_clones owner repo items st.clones st.kclones
    ({ st with clones := r.1, kclones := r.2.1 },
      "  Clones: " ++ toString r.2.2 ++ " new records")

/-- One collector invocation under the orchestrator try/except: `Referrers`. -/
def stepReferrers (api : Api) (today owner repo : String) (st : RunSt) :
    RunSt × String :=
  match api.referrers owner repo with
  | .error e => (st, "  Referrers: SKIP - " ++ e)
  | .ok items =>
    let r := collect_referrers today owner repo items st.referrers st.kreferrers
    ({ st with referrers := r.1, kreferrers := r.2.1 },
      "  Referrers: " ++ toString r.2.2 ++ " new records")

/-- One collector invocation under the orchestrator try/except: `Paths`. -/
def stepPaths (api : Api) (today owner repo : String) (st : RunSt) :
    RunSt × String :=
  match api.paths owner repo with
  | .error e => (st, "  Paths: SKIP - " ++ e)
  | .ok items =>
    let r := collect_paths today owner repo items st.paths st.kpaths
    ({ st with paths := r.1, kpaths := r.2.1 },
      "  Paths: " ++ toString r.2.2 ++ " new records")

/-- One collector invocation under the orchestrator try/except: `Releases`. -/
def stepReleases (api : Api) (today owner repo : String) (st : RunSt) :
    RunSt × String :=
  match api.releases owner repo with
  | .error e => (st, "  Releases: SKIP - " ++ e)
  | .ok items =>
    let r := collect_releases today owner repo items st.releases st.kreleases
    ({ st with releases := r.1, kreleases := r.2.1 },
      "  Releases: " ++ toString r.2.2 ++ " new records")

/-- The inner loop of `main` for one repository: the five collectors in
`COLLECTORS` order, each under its own try/except. -/
def runRepo (api : Api) (today owner repo : String) (st : RunSt) :
    RunSt × List String :=
  let p1 := stepViews api owner repo st
  let p2 := stepClones api owner repo p1.1
  let p3 := stepReferrers api today owner repo p2.1
  let p4 := stepPaths api today owner repo p3.1
  let p5 := stepReleases api today owner repo p4.1
  (p5.1, ["Processing " ++ owner ++ "/" ++ repo ++ "..."] ++
    [p1.2, p2.2, p3.2, p4.2, p5.2])

/-- The outer loop of `main` over the configured repo list. A failing
`parse_repo` unpack propagates and aborts the run (it is outside the
try/except); collector failures never do. -/
def processRepos (api : Api) (today : String) :
    List String → RunSt → Except String (RunSt × List String)
  | [], st => .ok (st, [])
  | raw :: rest, st =>
    match parseRepoPair raw with
    | none => .error ("not enough values to unpack: " ++ raw)
    | some (o, r) =>
      let p := runRepo api today o r st
      match processRepos api today rest p.1 with
      | .error e => .error e
      | .ok q => .ok (q.1, p.2 ++ q.2)

/-- Persistent contents of the `stats/` directory: the five raw tables plus
the three derived outputs. -/
structure Stats where
  views : Option (List ViewRow)
  clones : Option (List CloneRow)
  referrers : Option (List ReferrerRow)
  paths : Option (List PathRow)
  releases : Option (List ReleaseRow)
  summary : Option (List SummaryRow)
  monthly : Option (List MonthlyRow)
  sjson : Option SummaryJson
deriving DecidableEq, Repr

/-- Model of the key-loading prologue of `main`: the tables become the in-run
state and `all_keys` is `load_existing_keys` on each table with its
`COLLECTORS` key fields. -/
def initRun (st : Stats) : RunSt :=
  { views := st.views
    clones := st.clones
    referrers := st.referrers
    paths := st.paths
    releases := st.releases
    kviews := loadKeys st.views viewRowKey
    kclones := loadKeys st.clones cloneRowKey
    kreferrers := loadKeys st.referrers referrerRowKey
    kpaths := loadKeys st.paths pathRowKey
    kreleases := loadKeys st.releases releaseRowKey }

/-- Model of the aggregation epilogue of `main`: regenerate summary.csv,
monthly.csv and summary.json from the raw tables (`read_csv` of an absent
file yields no rows). -/
def buildStats (today : String) (rs : RunSt) : Stats :=
  let summary := generate_summary (rs.views.getD []) (rs.clones.getD [])
    (rs.releases.getD [])
  let monthly := generate_monthly (rs.views.getD []) (rs.clones.getD [])
    (rs.releases.getD [])
  { views := rs.views
    clones := rs.clones
    referrers := rs.referrers
    paths := rs.paths
    releases := rs.releases
    summary := some summary
    monthly := some monthly
    sjson := some (generate_json today summary (rs.views.getD [])
      (rs.clones.getD []) monthly) }

/-- Embedding of `main`: load the dedup keys, run every collector for every
configured repo, then regenerate the three derived outputs. -/
def main (api : Api) (today : String) (repos : List String) (st : Stats) :
    Except String (Stats × List String) :=
  match processRepos api today repos (initRun st) with
  | .error e => .error e
  | .ok p => .ok (buildStats today p.1, p.2)

/-! ### Claim theorems: repo-spec parsing -/

theorem string_mk_toList (s : String) : String.mk s.toList = s := by
  cases s; rfl

theorem parseRepoPair_split (o r : String) (ho : '/' ∉ o.toList)
    (hh : (o ++ "/" ++ r).toList.take 4 ≠ "http".toList) :
    parseRepoPair (o ++ "/" ++ r) = some (o, r) := by
  unfold parseRepoPair parse_repo
  have hlist : (o ++ "/" ++ r).toList = o.toList ++ '/' :: r.toList := by
    rw [string_toList_append, string_toList_append, List.append_assoc]
    rfl
  rw [hlist] at hh ⊢
  simp only [if_neg hh]
  rw [splitFirst_append _ _ ho]
  simp [string_mk_toList]

/-- C7: the repo-spec parser maps `owner/repo` to `(owner, repo)`; URL inputs
take the URL path, strip surrounding slashes, and split on the first slash,
so both `https://github.com/owner/repo` and its trailing-slash variant yield
`("owner", "repo")`; and any input without a slash fails to unpack. -/
theorem parse_repo_spec :
    (∀ o r : String, '/' ∉ o.toList →
      (o ++ "/" ++ r).toList.take 4 ≠ "http".toList →
      parseRepoPair (o ++ "/" ++ r) = some (o, r)) ∧
    parseRepoPair "https://github.com/owner/repo" = some ("owner", "repo") ∧
    parseRepoPair "https://github.com/owner/repo/" = some ("owner", "repo") ∧
    (∀ s : String, '/' ∉ s.toList → parseRepoPair s = none) := by
  refine ⟨parseRepoPair_split, by decide, by decide, ?_⟩
  exact parseRepoPair_none_of_no_slash

theorem parse_repo_spec_witness :
    parseRepoPair ("abc" ++ "/" ++ "def") = some ("abc", "def") ∧
    parseRepoPair "noslashhere" = none :=
  ⟨parse_repo_spec.1 "abc" "def" (by decide) (by decide),
    parse_repo_spec.2.2.2 "noslashhere" (by decide)⟩

/-- C10: the parser splits on the first slash only, so extra slashes end up
inside the repo component: `owner/repo/extra` gives `("owner", "repo/extra")`
and `https://github.com/owner/repo/tree/main` gives
`("owner", "repo/tree/main")`; in general, for a non-URL identifier the
whole remainder after the first slash is the repo component. -/
theorem parse_repo_first_slash :
    parseRepoPair "owner/repo/extra" = some ("owner", "repo/extra") ∧
    parseRepoPair "https://github.com/owner/repo/tree/main" =
      some ("owner", "repo/tree/main") ∧
    (∀ o rest : String, '/' ∉ o.toList →
      (o ++ "/" ++ rest).toList.take 4 ≠ "http".toList →
      parseRepoPair (o ++ "/" ++ rest) = some (o, rest)) := by
  refine ⟨by decide, by decide, ?_⟩
  exact parseRepoPair_split

theorem parse_repo_first_slash_witness :
    parseRepoPair ("abc" ++ "/" ++ "d/e/f") = some ("abc", "d/e/f") :=
  parse_repo_first_slash.2.2 "abc" "d/e/f" (by decide) (by decide)

/-! ### Claim theorems: key-store loader and flat-table appender -/

/-- C8: `load_existing_keys` returns the empty set for an absent file, and
otherwise exactly the set of tuples projecting each data row onto the key
fields in order, a missing field contributing the empty string. -/
theorem load_existing_keys_spec :
    (∀ kf, load_existing_keys none kf = []) ∧
    (∀ (f : CsvFile) (kf : List String) (t : List String),
      t ∈ load_existing_keys (some f) kf ↔
        ∃ vals ∈ f.rows, t = kf.map (rowGet f.header vals)) ∧
    (∀ header vals k, k ∉ header → rowGet header vals k = "") := by
  refine ⟨fun _ => rfl, ?_, rowGet_not_mem⟩
  intro f kf t
  simp only [load_existing_keys, List.mem_map]
  constructor
  · rintro ⟨vals, hv, ht⟩; exact ⟨vals, hv, ht.symm⟩
  · rintro ⟨vals, hv, ht⟩; exact ⟨vals, hv, ht.symm⟩

theorem load_existing_keys_spec_witness :
    load_existing_keys none ["date", "repo"] = [] ∧
    rowGet ["date", "repo"] ["2025-01-01", "o/r"] "missing_field" = "" :=
  ⟨load_existing_keys_spec.1 ["date", "repo"],
    load_existing_keys_spec.2.2 ["date", "repo"] ["2025-01-01", "o/r"]
      "missing_field" (by decide)⟩

/-- C9: `append_csv` creates the parent directory, writes the header exactly
when the file did not exist, appends exactly one data row, leaves the
pre-existing content (header and rows) unchanged, and touches no other
file. -/
theorem append_csv_spec (fs : FS) (path : String) (fieldnames : List String)
    (row : List (String × String)) :
    dirname path ∈ (append_csv fs path fieldnames row).dirs ∧
    (∀ q, q ≠ path → (append_csv fs path fieldnames row).files q = fs.files q) ∧
    (fs.files path = none →
      (append_csv fs path fieldnames row).files path =
        some ⟨fieldnames, [writeRowVals fieldnames row]⟩) ∧
    (∀ f, fs.files path = some f →
      (append_csv fs path fieldnames row).files path =
        some ⟨f.header, f.rows ++ [writeRowVals fieldnames row]⟩) := by
  unfold append_csv
  cases hf : fs.files path with
  | none =>
    refine ⟨?_, ?_, ?_, ?_⟩
    · by_cases hd : dirname path ∈ fs.dirs
      · simp [hd]
      · simp [hd]
    · intro q hq; simp [hq]
    · intro _; simp
    · intro f hcontra; cases hcontra
  | some f =>
    refine ⟨?_, ?_, ?_, ?_⟩
    · by_cases hd : dirname path ∈ fs.dirs
      · simp [hd]
      · simp [hd]
    · intro q hq; simp [hq]
    · intro hcontra; cases hcontra
    · intro g hg
      cases hg
      simp

theorem append_csv_spec_witness :
    dirname "stats/traffic_views.csv" ∈
      (append_csv ⟨[], fun _ => none⟩ "stats/traffic_views.csv"
        ["date", "repo"] [("date", "2025-01-01"), ("repo", "o/r")]).dirs ∧
    (append_csv ⟨[], fun _ => none⟩ "stats/traffic_views.csv"
        ["date", "repo"] [("date", "2025-01-01"), ("repo", "o/r")]).files
      "stats/other.csv" = none ∧
    (append_csv ⟨[], fun _ => none⟩ "stats/traffic_views.csv"
        ["date", "repo"] [("date", "2025-01-01"), ("repo", "o/r")]).files
      "stats/traffic_views.csv" =
      some ⟨["date", "repo"], [["2025-01-01", "o/r"]]⟩ := by
  have h := append_csv_spec ⟨[], fun _ => none⟩ "stats/traffic_views.csv"
    ["date", "repo"] [("date", "2025-01-01"), ("repo", "o/r")]
  refine ⟨h.1, ?_, ?_⟩
  · rw [h.2.1 "stats/other.csv" (by decide)]
  · rw [h.2.2.1 rfl]
    simp [writeRowVals, List.lookup]

/-! ### Claim theorems: dedup in the collectors -/

/-- Appended-rows characterisation of `collect_views`. -/
theorem collect_views_append (owner repo : String) (items : List TrafficItem)
    (t : Option (List ViewRow)) (keys : List Key) : ∃ new,
    (collect_views owner repo items t keys).1.getD [] = t.getD [] ++ new ∧
    (collect_views owner repo items t keys).2.2 = new.length ∧
    ∀ r ∈ new, viewRowKey r ∉ keys := by
  unfold collect_views
  obtain ⟨new, h1, h2, h3⟩ := collectGen_append
    (fun v : TrafficItem => [strTake v.timestamp 10, owner ++ "/" ++ repo])
    (fun v : TrafficItem =>
      (⟨strTake v.timestamp 10, owner ++ "/" ++ repo, v.count, v.uniques⟩ : ViewRow))
    viewRowKey (fun a => rfl) items t keys 0
  exact ⟨new, h1, by rw [h2, Nat.zero_add], h3⟩

theorem collect_clones_append (owner repo : String) (items : List TrafficItem)
    (t : Option (List CloneRow)) (keys : List Key) : ∃ new,
    (collect_clones owner repo items t keys).1.getD [] = t.getD [] ++ new ∧
    (collect_clones owner repo items t keys).2.2 = new.length ∧
    ∀ r ∈ new, cloneRowKey r ∉ keys := by
  unfold collect_clones
  obtain ⟨new, h1, h2, h3⟩ := collectGen_append
    (fun c : TrafficItem => [strTake c.timestamp 10, owner ++ "/" ++ repo])
    (fun c : TrafficItem =>
      (⟨strTake c.timestamp 10, owner ++ "/" ++ repo, c.count, c.uniques⟩ : CloneRow))
    cloneRowKey (fun a => rfl) items t keys 0
  exact ⟨new, h1, by rw [h2, Nat.zero_add], h3⟩

theorem collect_referrers_append (today owner repo : String)
    (items : List RefItem) (t : Option (List ReferrerRow)) (keys : List Key) :
    ∃ new,
    (collect_referrers today owner repo items t keys).1.getD [] =
      t.getD [] ++ new ∧
    (collect_referrers today owner repo items t keys).2.2 = new.length ∧
    ∀ r ∈ new, referrerRowKey r ∉ keys := by
  unfold collect_referrers
  obtain ⟨new, h1, h2, h3⟩ := collectGen_append
    (fun r : RefItem => [today, owner ++ "/" ++ repo, r.referrer])
    (fun r : RefItem =>
      (⟨today, owner ++ "/" ++ repo, r.referrer, r.count, r.uniques⟩ : ReferrerRow))
    referrerRowKey (fun a => rfl) items t keys 0
  exact ⟨new, h1, by rw [h2, Nat.zero_add], h3⟩

theorem collect_paths_append (today owner repo : String)
    (items : List PathItem) (t : Option (List PathRow)) (keys : List Key) :
    ∃ new,
    (collect_paths today owner repo items t keys).1.getD [] =
      t.getD [] ++ new ∧
    (collect_paths today owner repo items t keys).2.2 = new.length ∧
    ∀ r ∈ new, pathRowKey r ∉ keys := by
  unfold collect_paths
  obtain ⟨new, h1, h2, h3⟩ := collectGen_append
    (fun p : PathItem => [today, owner ++ "/" ++ repo, p.path])
    (fun p : PathItem =>
      (⟨today, owner ++ "/" ++ repo, p.path, p.title, p.count, p.uniques⟩ : PathRow))
    pathRowKey (fun a => rfl) items t keys 0
  exact ⟨new, h1, by rw [h2, Nat.zero_add], h3⟩

theorem collect_releases_append (today owner repo : String)
    (rels : List Release) (t : Option (List ReleaseRow)) (keys : List Key) :
    ∃ new,
    (collect_releases today owner repo rels t keys).1.getD [] =
      t.getD [] ++ new ∧
    (collect_releases today owner repo rels t keys).2.2 = new.length ∧
    ∀ r ∈ new, releaseRowKey r ∉ keys := by
  unfold collect_releases
  obtain ⟨new, h1, h2, h3⟩ := collectGen_append
    (fun p : String × Asset => [today, owner ++ "/" ++ repo, p.1, p.2.name])
    (fun p : String × Asset =>
      (⟨today, owner ++ "/" ++ repo, p.1, p.2.name, p.2.download_count⟩ : ReleaseRow))
    releaseRowKey (fun a => rfl)
    (rels.flatMap (fun rel => rel.assets.map (fun a => (rel.tag_name, a))))
    t keys 0
  exact ⟨new, h1, by rw [h2, Nat.zero_add], h3⟩

/-- C1: every collector appends only rows whose natural key was not in the
existing-key set it was given, and its returned total counts exactly the
appended rows — so an item whose key is already present contributes neither
a row nor a count; in particular two referrer items with the same
`(date, repo, referrer)` key collapse to one persisted row even when their
view counts differ. -/
theorem collectors_dedup_spec :
    (∀ owner repo items t keys, ∃ new,
      (collect_views owner repo items t keys).1.getD [] = t.getD [] ++ new ∧
      (collect_views owner repo items t keys).2.2 = new.length ∧
      ∀ r ∈ new, viewRowKey r ∉ keys) ∧
    (∀ owner repo items t keys, ∃ new,
      (collect_clones owner repo items t keys).1.getD [] = t.getD [] ++ new ∧
      (collect_clones owner repo items t keys).2.2 = new.length ∧
      ∀ r ∈ new, cloneRowKey r ∉ keys) ∧
    (∀ today owner repo items t keys, ∃ new,
      (collect_referrers today owner repo items t keys).1.getD [] =
        t.getD [] ++ new ∧
      (collect_referrers today owner repo items t keys).2.2 = new.length ∧
      ∀ r ∈ new, referrerRowKey r ∉ keys) ∧
    (∀ today owner repo items t keys, ∃ new,
      (collect_paths today owner repo items t keys).1.getD [] =
        t.getD [] ++ new ∧
      (collect_paths today owner repo items t keys).2.2 = new.length ∧
      ∀ r ∈ new, pathRowKey r ∉ keys) ∧
    (∀ today owner repo rels t keys, ∃ new,
      (collect_releases today owner repo rels t keys).1.getD [] =
        t.getD [] ++ new ∧
      (collect_releases today owner repo rels t keys).2.2 = new.length ∧
      ∀ r ∈ new, releaseRowKey r ∉ keys) ∧
    (∀ today owner repo ref c1 u1 c2 u2 t,
      collect_referrers today owner repo
          [⟨ref, c1, u1⟩, ⟨ref, c2, u2⟩] t [] =
        (some (t.getD [] ++ [⟨today, owner ++ "/" ++ repo, ref, c1, u1⟩]),
          [[today, owner ++ "/" ++ repo, ref]], 1)) := by
  refine ⟨collect_views_append, collect_clones_append, collect_referrers_append,
    collect_paths_append, collect_releases_append, ?_⟩
  intro today owner repo ref c1 u1 c2 u2 t
  simp [collect_referrers, collectGen]

theorem collectors_dedup_spec_witness :
    collect_referrers "2025-10-12" "o" "r" [⟨"x", 1, 2⟩, ⟨"x", 3, 4⟩] none [] =
      (some [⟨"2025-10-12", "o" ++ "/" ++ "r", "x", 1, 2⟩],
        [["2025-10-12", "o" ++ "/" ++ "r", "x"]], 1) :=
  collectors_dedup_spec.2.2.2.2.2 "2025-10-12" "o" "r" "x" 1 2 3 4 none

/-! ### Claim theorems: summary aggregation -/

/-- Sum of a numeric field over a list of rows. -/
def sumBy (l : List α) (f : α → Nat) : Nat := (l.map f).sum

/-- All date strings contributed to a repo by the three raw tables read by
`generate_summary`, in the order the three loops visit them. -/
def datesFor (r : String) (v : List ViewRow) (c : List CloneRow)
    (rel : List ReleaseRow) : List String :=
  (v.filter (fun x => x.repo = r)).map (fun x => x.date) ++
    (c.filter (fun x => x.repo = r)).map (fun x => x.date) ++
    (rel.filter (fun x => x.repo = r)).map (fun x => x.date)

theorem mem_touchKey (ks : List String) (k r : String) :
    r ∈ touchKey ks k ↔ r ∈ ks ∨ r = k := by
  unfold touchKey
  by_cases h : k ∈ ks
  · simp only [if_pos h]
    constructor
    · exact Or.inl
    · rintro (h1 | rfl)
      · exact h1
      · exact h
  · simp [if_neg h]

theorem foldl_max_init_le [LinearOrder α] (l : List α) (d : α) :
    d ≤ l.foldl max d := by
  induction l generalizing d with
  | nil => exact le_refl d
  | cons a l ih => exact le_trans (le_max_left d a) (ih (max d a))

theorem foldl_max_le_of_mem [LinearOrder α] (l : List α) (d : α) :
    ∀ x ∈ l, x ≤ l.foldl max d := by
  induction l generalizing d with
  | nil => intro x hx; simp at hx
  | cons a l ih =>
    intro x hx
    rcases List.mem_cons.mp hx with rfl | h2
    · exact le_trans (le_max_right d x) (foldl_max_init_le l (max d x))
    · exact ih (max d a) x h2

theorem foldl_max_eq_or_mem [LinearOrder α] (l : List α) (d : α) :
    l.foldl max d = d ∨ l.foldl max d ∈ l := by
  induction l generalizing d with
  | nil => exact Or.inl rfl
  | cons a l ih =>
    rw [List.foldl_cons]
    rcases ih (max d a) with h | h
    · rw [h]
      rcases max_choice d a with h1 | h1
      · exact Or.inl h1
      · rw [h1]
        exact Or.inr (List.mem_cons_self _ _)
    · exact Or.inr (List.mem_cons_of_mem _ h)

theorem empty_string_le (s : String) : "" ≤ s := by
  rw [String.le_iff_toList_le]
  exact List.nil_le

theorem summaryViews_foldl_at (v : List ViewRow) (m : SMap) (r : String) :
    (v.foldl summaryViewsStep m).1 r =
      { total_views := (m.1 r).total_views +
          sumBy (v.filter (fun x => x.repo = r)) (fun x => x.views)
        total_unique_visitors := (m.1 r).total_unique_visitors +
          sumBy (v.filter (fun x => x.repo = r)) (fun x => x.unique_visitors)
        total_clones := (m.1 r).total_clones
        total_unique_cloners := (m.1 r).total_unique_cloners
        total_downloads := (m.1 r).total_downloads
        last_date := ((v.filter (fun x => x.repo = r)).map
          (fun x => x.date)).foldl strMax (m.1 r).last_date } := by
  induction v generalizing m with
  | nil => simp [sumBy]
  | cons row v ih =>
    rw [List.foldl_cons, ih]
    by_cases h : row.repo = r
    · simp only [List.filter_cons, h, decide_True, if_true, List.map_cons,
        List.foldl_cons, sumBy, List.sum_cons]
      simp only [summaryViewsStep, h, if_pos rfl]
      simp [STotals.mk.injEq, Nat.add_assoc, sumBy]
    · have hne : ¬r = row.repo := fun heq => h heq.symm
      simp only [summaryViewsStep, if_neg hne]
      simp [h]

theorem summaryClones_foldl_at (c : List CloneRow) (m : SMap) (r : String) :
    (c.foldl summaryClonesStep m).1 r =
      { total_views := (m.1 r).total_views
        total_unique_visitors := (m.1 r).total_unique_visitors
        total_clones := (m.1 r).total_clones +
          sumBy (c.filter (fun x => x.repo = r)) (fun x => x.clones)
        total_unique_cloners := (m.1 r).total_unique_cloners +
          sumBy (c.filter (fun x => x.repo = r)) (fun x => x.unique_cloners)
        total_downloads := (m.1 r).total_downloads
        last_date := ((c.filter (fun x => x.repo = r)).map
          (fun x => x.date)).foldl strMax (m.1 r).last_date } := by
  induction c generalizing m with
  | nil => simp [sumBy]
  | cons row c ih =>
    rw [List.foldl_cons, ih]
    by_cases h : row.repo = r
    · simp only [List.filter_cons, h, decide_True, if_true, List.map_cons,
        List.foldl_cons, sumBy, List.sum_cons]
      simp only [summaryClonesStep, h, if_pos rfl]
      simp [STotals.mk.injEq, Nat.add_assoc, sumBy]
    · have hne : ¬r = row.repo := fun heq => h heq.symm
      simp only [summaryClonesStep, if_neg hne]
      simp [h]

theorem summaryReleases_foldl_at (rel : List ReleaseRow) (m : SMap) (r : String) :
    (rel.foldl summaryReleasesStep m).1 r =
      { total_views := (m.1 r).total_views
        total_unique_visitors := (m.1 r).total_unique_visitors
        total_clones := (m.1 r).total_clones
        total_unique_cloners := (m.1 r).total_unique_cloners
        total_downloads := (m.1 r).total_downloads +
          sumBy (rel.filter (fun x => x.repo = r)) (fun x => x.download_count)
        last_date := ((rel.filter (fun x => x.repo = r)).map
          (fun x => x.date)).foldl strMax (m.1 r).last_date } := by
  induction rel generalizing m with
  | nil => simp [sumBy]
  | cons row rel ih =>
    rw [List.foldl_cons, ih]
    by_cases h : row.repo = r
    · simp only [List.filter_cons, h, decide_True, if_true, List.map_cons,
        List.foldl_cons, sumBy, List.sum_cons]
      simp only [summaryReleasesStep, h, if_pos rfl]
      simp [STotals.mk.injEq, Nat.add_assoc, sumBy]
    · have hne : ¬r = row.repo := fun heq => h heq.symm
      simp only [summaryReleasesStep, if_neg hne]
      simp [h]

theorem summaryViews_foldl_keys (v : List ViewRow) (m : SMap) (r : String) :
    r ∈ (v.foldl summaryViewsStep m).2 ↔
      r ∈ m.2 ∨ r ∈ v.map (fun x => x.repo) := by
  induction v generalizing m with
  | nil => simp
  | cons row v ih =>
    rw [List.foldl_cons, ih]
    simp only [summaryViewsStep, mem_touchKey, List.map_cons, List.mem_cons]
    constructor
    · rintro ((h1 | h1) | h1)
      · exact Or.inl h1
      · exact Or.inr (Or.inl h1)
      · exact Or.inr (Or.inr h1)
    · rintro (h1 | h1 | h1)
      · exact Or.inl (Or.inl h1)
      · exact Or.inl (Or.inr h1)
      · exact Or.inr h1

theorem summaryClones_foldl_keys (c : List CloneRow) (m : SMap) (r : String) :
    r ∈ (c.foldl summaryClonesStep m).2 ↔
      r ∈ m.2 ∨ r ∈ c.map (fun x => x.repo) := by
  induction c generalizing m with
  | nil => simp
  | cons row c ih =>
    rw [List.foldl_cons, ih]
    simp only [summaryClonesStep, mem_touchKey, List.map_cons, List.mem_cons]
    constructor
    · rintro ((h1 | h1) | h1)
      · exact Or.inl h1
      · exact Or.inr (Or.inl h1)
      · exact Or.inr (Or.inr h1)
    · rintro (h1 | h1 | h1)
      · exact Or.inl (Or.inl h1)
      · exact Or.inl (Or.inr h1)
      · exact Or.inr h1

theorem summaryReleases_foldl_keys (rel : List ReleaseRow) (m : SMap) (r : String) :
    r ∈ (rel.foldl summaryReleasesStep m).2 ↔
      r ∈ m.2 ∨ r ∈ rel.map (fun x => x.repo) := by
  induction rel generalizing m with
  | nil => simp
  | cons row rel ih =>
    rw [List.foldl_cons, ih]
    simp only [summaryReleasesStep, mem_touchKey, List.map_cons, List.mem_cons]
    constructor
    · rintro ((h1 | h1) | h1)
      · exact Or.inl h1
      · exact Or.inr (Or.inl h1)
      · exact Or.inr (Or.inr h1)
    · rintro (h1 | h1 | h1)
      · exact Or.inl (Or.inl h1)
      · exact Or.inl (Or.inr h1)
      · exact Or.inr h1

theorem summary_entry (v : List ViewRow) (c : List CloneRow)
    (rel : List ReleaseRow) (r : String) :
    (rel.foldl summaryReleasesStep (c.foldl summaryClonesStep
        (v.foldl summaryViewsStep ((fun _ => emptySTotals, [])))) ).1 r =
      { total_views := sumBy (v.filter (fun x => x.repo = r)) (fun x => x.views)
        total_unique_visitors :=
          sumBy (v.filter (fun x => x.repo = r)) (fun x => x.unique_visitors)
        total_clones := sumBy (c.filter (fun x => x.repo = r)) (fun x => x.clones)
        total_unique_cloners :=
          sumBy (c.filter (fun x => x.repo = r)) (fun x => x.unique_cloners)
        total_downloads :=
          sumBy (rel.filter (fun x => x.repo = r)) (fun x => x.download_count)
        last_date := (datesFor r v c rel).foldl strMax "" } := by
  rw [summaryReleases_foldl_at, summaryClones_foldl_at, summaryViews_foldl_at]
  simp [emptySTotals, datesFor, List.foldl_append]

theorem summary_keys (v : List ViewRow) (c : List CloneRow)
    (rel : List ReleaseRow) (r : String) :
    r ∈ (rel.foldl summaryReleasesStep (c.foldl summaryClonesStep
        (v.foldl summaryViewsStep ((fun _ => emptySTotals, [])))) ).2 ↔
      r ∈ v.map (fun x => x.repo) ∨ r ∈ c.map (fun x => x.repo) ∨
        r ∈ rel.map (fun x => x.repo) := by
  rw [summaryReleases_foldl_keys, summaryClones_foldl_keys,
    summaryViews_foldl_keys]
  simp [or_assoc]

/-- C3: each summary row carries the sums of views, unique visitors, clones,
unique cloners and downloads over that repo across the raw tables, and its
last date is the lexicographic maximum date among that repo's view, clone
and release rows; rows are sorted by repo; a repo appears exactly when it has
a row in one of the three tables; the concrete two-row example from the spec
evaluates as stated. -/
theorem generate_summary_spec (v : List ViewRow) (c : List CloneRow)
    (rel : List ReleaseRow) :
    List.Sorted (fun a b : SummaryRow => a.repo ≤ b.repo)
      (generate_summary v c rel) ∧
    (∀ row ∈ generate_summary v c rel,
      row.total_views =
        sumBy (v.filter (fun x => x.repo = row.repo)) (fun x => x.views) ∧
      row.total_unique_visitors =
        sumBy (v.filter (fun x => x.repo = row.repo)) (fun x => x.unique_visitors) ∧
      row.total_clones =
        sumBy (c.filter (fun x => x.repo = row.repo)) (fun x => x.clones) ∧
      row.total_unique_cloners =
        sumBy (c.filter (fun x => x.repo = row.repo)) (fun x => x.unique_cloners) ∧
      row.total_downloads =
        sumBy (rel.filter (fun x => x.repo = row.repo)) (fun x => x.download_count) ∧
      (∀ d ∈ datesFor row.repo v c rel, d ≤ row.last_date) ∧
      row.last_date ∈ datesFor row.repo v c rel) ∧
    (∀ s : String, (∃ row ∈ generate_summary v c rel, row.repo = s) ↔
      (s ∈ v.map (fun x => x.repo) ∨ s ∈ c.map (fun x => x.repo) ∨
        s ∈ rel.map (fun x => x.repo))) ∧
    generate_summary
        [⟨"2025-01-01", "o/r", 5, 2⟩, ⟨"2025-01-02", "o/r", 3, 1⟩] [] [] =
      [⟨"o/r", 8, 3, 0, 0, 0, "2025-01-02"⟩] := by
  refine ⟨?_, ?_, ?_, by decide⟩
  · unfold generate_summary
    exact List.Pairwise.map _ (fun a b hab => (strLeP_iff a b).mp hab)
      (List.sorted_insertionSort strLeP _)
  · intro row hrow
    unfold generate_summary at hrow
    simp only [List.mem_map] at hrow
    obtain ⟨repo, hmem, heq⟩ := hrow
    rw [List.mem_insertionSort] at hmem
    subst heq
    rw [summary_entry]
    refine ⟨rfl, rfl, rfl, rfl, rfl, ?_, ?_⟩
    · intro d hd
      rw [foldl_strMax_eq]
      exact foldl_max_le_of_mem _ _ d hd
    · rw [foldl_strMax_eq]
      have hne : datesFor repo v c rel ≠ [] := by
        rw [summary_keys] at hmem
        unfold datesFor
        rcases hmem with h | h | h
        · obtain ⟨x, hx, hxr⟩ := List.mem_map.mp h
          intro hnil
          have : x.date ∈ ([] : List String) := by
            rw [← hnil]
            refine List.mem_append.mpr (Or.inl (List.mem_append.mpr (Or.inl ?_)))
            exact List.mem_map.mpr ⟨x, List.mem_filter.mpr ⟨hx, by simp [hxr]⟩, rfl⟩
          simp at this
        · obtain ⟨x, hx, hxr⟩ := List.mem_map.mp h
          intro hnil
          have : x.date ∈ ([] : List String) := by
            rw [← hnil]
            refine List.mem_append.mpr (Or.inl (List.mem_append.mpr (Or.inr ?_)))
            exact List.mem_map.mpr ⟨x, List.mem_filter.mpr ⟨hx, by simp [hxr]⟩, rfl⟩
          simp at this
        · obtain ⟨x, hx, hxr⟩ := List.mem_map.mp h
          intro hnil
          have : x.date ∈ ([] : List String) := by
            rw [← hnil]
            refine List.mem_append.mpr (Or.inr ?_)
            exact List.mem_map.mpr ⟨x, List.mem_filter.mpr ⟨hx, by simp [hxr]⟩, rfl⟩
          simp at this
      rcases foldl_max_eq_or_mem (datesFor repo v c rel) "" with h | h
      · obtain ⟨d0, hd0⟩ := List.exists_mem_of_ne_nil _ hne
        have h1 : d0 ≤ "" := h ▸ foldl_max_le_of_mem _ _ d0 hd0
        have h2 : d0 = "" := le_antisymm h1 (empty_string_le d0)
        rw [h]
        exact h2 ▸ hd0
      · exact h
  · intro s
    rw [← summary_keys v c rel s]
    unfold generate_summary
    constructor
    · rintro ⟨row, hrow, hrs⟩
      obtain ⟨a, ha, hfa⟩ := List.mem_map.mp hrow
      rw [List.mem_insertionSort] at ha
      subst hfa
      have has : a = s := hrs
      exact has ▸ ha
    · intro hs
      exact ⟨_, List.mem_map.mpr ⟨s, (List.mem_insertionSort strLeP).mpr hs, rfl⟩,
        rfl⟩

theorem generate_summary_spec_witness :
    (⟨"o/r", 8, 3, 0, 0, 0, "2025-01-02"⟩ : SummaryRow).total_views =
      sumBy (([⟨"2025-01-01", "o/r", 5, 2⟩, ⟨"2025-01-02", "o/r", 3, 1⟩] :
        List ViewRow).filter (fun x => x.repo = "o/r")) (fun x => x.views) ∧
    (⟨"o/r", 8, 3, 0, 0, 0, "2025-01-02"⟩ : SummaryRow).last_date ∈
      datesFor "o/r" [⟨"2025-01-01", "o/r", 5, 2⟩, ⟨"2025-01-02", "o/r", 3, 1⟩]
        [] [] := by
  have h := generate_summary_spec
    [⟨"2025-01-01", "o/r", 5, 2⟩, ⟨"2025-01-02", "o/r", 3, 1⟩] [] []
  have hmem : (⟨"o/r", 8, 3, 0, 0, 0, "2025-01-02"⟩ : SummaryRow) ∈
      generate_summary
        [⟨"2025-01-01", "o/r", 5, 2⟩, ⟨"2025-01-02", "o/r", 3, 1⟩] [] [] := by
    rw [h.2.2.2]
    exact List.mem_singleton.mpr rfl
  obtain ⟨h1, _, _, _, _, _, h7⟩ := h.2.1 _ hmem
  exact ⟨h1, h7⟩

/-! ### Claim theorems: monthly aggregation -/

theorem mem_touchPair (ks : List (String × String)) (k r : String × String) :
    r ∈ touchPair ks k ↔ r ∈ ks ∨ r = k := by
  unfold touchPair
  by_cases h : k ∈ ks
  · simp only [if_pos h]
    constructor
    · exact Or.inl
    · rintro (h1 | rfl)
      · exact h1
      · exact h
  · simp [if_neg h]

theorem monthlyViews_foldl_at (v : List ViewRow) (m : MMap)
    (k : String × String) :
    (v.foldl monthlyViewsStep m).1 k =
      { views := (m.1 k).views + sumBy
          (v.filter (fun x => (x.repo, strTake x.date 7) = k)) (fun x => x.views)
        unique_visitors := (m.1 k).unique_visitors + sumBy
          (v.filter (fun x => (x.repo, strTake x.date 7) = k))
          (fun x => x.unique_visitors)
        clones := (m.1 k).clones
        unique_cloners := (m.1 k).unique_cloners
        downloads := (m.1 k).downloads } := by
  induction v generalizing m with
  | nil => simp [sumBy]
  | cons row v ih =>
    rw [List.foldl_cons, ih]
    by_cases h : (row.repo, strTake row.date 7) = k
    · simp only [List.filter_cons, h, decide_True, if_true, List.map_cons,
        List.foldl_cons, sumBy, List.sum_cons]
      simp only [monthlyViewsStep]
      rw [if_pos h.symm, h]
      simp [MTotals.mk.injEq, Nat.add_assoc, sumBy]
    · have hne : ¬k = (row.repo, strTake row.date 7) := fun heq => h heq.symm
      simp only [monthlyViewsStep]
      rw [if_neg hne]
      simp [h]

theorem monthlyClones_foldl_at (c : List CloneRow) (m : MMap)
    (k : String × String) :
    (c.foldl monthlyClonesStep m).1 k =
      { views := (m.1 k).views
        unique_visitors := (m.1 k).unique_visitors
        clones := (m.1 k).clones + sumBy
          (c.filter (fun x => (x.repo, strTake x.date 7) = k)) (fun x => x.clones)
        unique_cloners := (m.1 k).unique_cloners + sumBy
          (c.filter (fun x => (x.repo, strTake x.date 7) = k))
          (fun x => x.unique_cloners)
        downloads := (m.1 k).downloads } := by
  induction c generalizing m with
  | nil => simp [sumBy]
  | cons row c ih =>
    rw [List.foldl_cons, ih]
    by_cases h : (row.repo, strTake row.date 7) = k
    · simp only [List.filter_cons, h, decide_True, if_true, List.map_cons,
        List.foldl_cons, sumBy, List.sum_cons]
      simp only [monthlyClonesStep]
      rw [if_pos h.symm, h]
      simp [MTotals.mk.injEq, Nat.add_assoc, sumBy]
    · have hne : ¬k = (row.repo, strTake row.date 7) := fun heq => h heq.symm
      simp only [monthlyClonesStep]
      rw [if_neg hne]
      simp [h]

theorem monthlyReleases_foldl_at (rel : List ReleaseRow) (m : MMap)
    (k : String × String) :
    (rel.foldl monthlyReleasesStep m).1 k =
      { views := (m.1 k).views
        unique_visitors := (m.1 k).unique_visitors
        clones := (m.1 k).clones
        unique_cloners := (m.1 k).unique_cloners
        downloads := (m.1 k).downloads + sumBy
          (rel.filter (fun x => (x.repo, strTake x.date 7) = k))
          (fun x => x.download_count) } := by
  induction rel generalizing m with
  | nil => simp [sumBy]
  | cons row rel ih =>
    rw [List.foldl_cons, ih]
    by_cases h : (row.repo, strTake row.date 7) = k
    · simp only [List.filter_cons, h, decide_True, if_true, List.map_cons,
        List.foldl_cons, sumBy, List.sum_cons]
      simp only [monthlyReleasesStep]
      rw [if_pos h.symm, h]
      simp [MTotals.mk.injEq, Nat.add_assoc, sumBy]
    · have hne : ¬k = (row.repo, strTake row.date 7) := fun heq => h heq.symm
      simp only [monthlyReleasesStep]
      rw [if_neg hne]
      simp [h]

theorem monthlyViews_foldl_keys (v : List ViewRow) (m : MMap)
    (k : String × String) :
    k ∈ (v.foldl monthlyViewsStep m).2 ↔
      k ∈ m.2 ∨ k ∈ v.map (fun x => (x.repo, strTake x.date 7)) := by
  induction v generalizing m with
  | nil => simp
  | cons row v ih =>
    rw [List.foldl_cons, ih]
    simp only [monthlyViewsStep, mem_touchPair, List.map_cons, List.mem_cons]
    constructor
    · rintro ((h1 | h1) | h1)
      · exact Or.inl h1
      · exact Or.inr (Or.inl h1)
      · exact Or.inr (Or.inr h1)
    · rintro (h1 | h1 | h1)
      · exact Or.inl (Or.inl h1)
      · exact Or.inl (Or.inr h1)
      · exact Or.inr h1

theorem monthlyClones_foldl_keys (c : List CloneRow) (m : MMap)
    (k : String × String) :
    k ∈ (c.foldl monthlyClonesStep m).2 ↔
      k ∈ m.2 ∨ k ∈ c.map (fun x => (x.repo, strTake x.date 7)) := by
  induction c generalizing m with
  | nil => simp
  | cons row c ih =>
    rw [List.foldl_cons, ih]
    simp only [monthlyClonesStep, mem_touchPair, List.map_cons, List.mem_cons]
    constructor
    · rintro ((h1 | h1) | h1)
      · exact Or.inl h1
      · exact Or.inr (Or.inl h1)
      · exact Or.inr (Or.inr h1)
    · rintro (h1 | h1 | h1)
      · exact Or.inl (Or.inl h1)
      · exact Or.inl (Or.inr h1)
      · exact Or.inr h1

theorem monthlyReleases_foldl_keys (rel : List ReleaseRow) (m : MMap)
    (k : String × String) :
    k ∈ (rel.foldl monthlyReleasesStep m).2 ↔
      k ∈ m.2 ∨ k ∈ rel.map (fun x => (x.repo, strTake x.date 7)) := by
  induction rel generalizing m with
  | nil => simp
  | cons row rel ih =>
    rw [List.foldl_cons, ih]
    simp only [monthlyReleasesStep, mem_touchPair, List.map_cons, List.mem_cons]
    constructor
    · rintro ((h1 | h1) | h1)
      · exact Or.inl h1
      · exact Or.inr (Or.inl h1)
      · exact Or.inr (Or.inr h1)
    · rintro (h1 | h1 | h1)
      · exact Or.inl (Or.inl h1)
      · exact Or.inl (Or.inr h1)
      · exact Or.inr h1

theorem monthly_entry (v : List ViewRow) (c : List CloneRow)
    (rel : List ReleaseRow) (k : String × String) :
    (rel.foldl monthlyReleasesStep (c.foldl monthlyClonesStep
        (v.foldl monthlyViewsStep ((fun _ => emptyMTotals, [])))) ).1 k =
      { views := sumBy (v.filter (fun x => (x.repo, strTake x.date 7) = k))
          (fun x => x.views)
        unique_visitors :=
          sumBy (v.filter (fun x => (x.repo, strTake x.date 7) = k))
            (fun x => x.unique_visitors)
        clones := sumBy (c.filter (fun x => (x.repo, strTake x.date 7) = k))
          (fun x => x.clones)
        unique_cloners :=
          sumBy (c.filter (fun x => (x.repo, strTake x.date 7) = k))
            (fun x => x.unique_cloners)
        downloads := sumBy (rel.filter (fun x => (x.repo, strTake x.date 7) = k))
          (fun x => x.download_count) } := by
  rw [monthlyReleases_foldl_at, monthlyClones_foldl_at, monthlyViews_foldl_at]
  simp [emptyMTotals]

theorem monthly_keys (v : List ViewRow) (c : List CloneRow)
    (rel : List ReleaseRow) (k : String × String) :
    k ∈ (rel.foldl monthlyReleasesStep (c.foldl monthlyClonesStep
        (v.foldl monthlyViewsStep ((fun _ => emptyMTotals, [])))) ).2 ↔
      k ∈ v.map (fun x => (x.repo, strTake x.date 7)) ∨
        k ∈ c.map (fun x => (x.repo, strTake x.date 7)) ∨
        k ∈ rel.map (fun x => (x.repo, strTake x.date 7)) := by
  rw [monthlyReleases_foldl_keys, monthlyClones_foldl_keys,
    monthlyViews_foldl_keys]
  simp [or_assoc]

/-- C4: the monthly aggregator buckets view, clone and release rows by
`(repo, date[:7])`, sums views, unique visitors, clones, unique cloners and
downloads within each bucket, and emits the buckets sorted lexicographically
by the `(repo, month)` pair; a bucket appears exactly when some row maps to
it. -/
theorem generate_monthly_spec (v : List ViewRow) (c : List CloneRow)
    (rel : List ReleaseRow) :
    List.Sorted (fun a b : MonthlyRow =>
      pairLe (a.repo, a.month) (b.repo, b.month)) (generate_monthly v c rel) ∧
    (∀ row ∈ generate_monthly v c rel,
      row.views = sumBy (v.filter
        (fun x => (x.repo, strTake x.date 7) = (row.repo, row.month)))
        (fun x => x.views) ∧
      row.unique_visitors = sumBy (v.filter
        (fun x => (x.repo, strTake x.date 7) = (row.repo, row.month)))
        (fun x => x.unique_visitors) ∧
      row.clones = sumBy (c.filter
        (fun x => (x.repo, strTake x.date 7) = (row.repo, row.month)))
        (fun x => x.clones) ∧
      row.unique_cloners = sumBy (c.filter
        (fun x => (x.repo, strTake x.date 7) = (row.repo, row.month)))
        (fun x => x.unique_cloners) ∧
      row.downloads = sumBy (rel.filter
        (fun x => (x.repo, strTake x.date 7) = (row.repo, row.month)))
        (fun x => x.download_count)) ∧
    (∀ k : String × String,
      (∃ row ∈ generate_monthly v c rel, (row.repo, row.month) = k) ↔
        (k ∈ v.map (fun x => (x.repo, strTake x.date 7)) ∨
          k ∈ c.map (fun x => (x.repo, strTake x.date 7)) ∨
          k ∈ rel.map (fun x => (x.repo, strTake x.date 7)))) ∧
    generate_monthly
        [⟨"2025-01-01", "o/r", 5, 2⟩, ⟨"2025-01-02", "o/r", 3, 1⟩] [] [] =
      [⟨"o/r", "2025-01", 8, 3, 0, 0, 0⟩] := by
  refine ⟨?_, ?_, ?_, by decide⟩
  · unfold generate_monthly
    exact List.Pairwise.map _ (fun a b hab => (pairLeP_iff a b).mp hab)
      (List.sorted_insertionSort pairLeP _)
  · intro row hrow
    unfold generate_monthly at hrow
    simp only [List.mem_map] at hrow
    obtain ⟨k, hmem, heq⟩ := hrow
    subst heq
    rw [monthly_entry]
    exact ⟨rfl, rfl, rfl, rfl, rfl⟩
  · intro k
    rw [← monthly_keys v c rel k]
    unfold generate_monthly
    constructor
    · rintro ⟨row, hrow, hrk⟩
      obtain ⟨a, ha, hfa⟩ := List.mem_map.mp hrow
      rw [List.mem_insertionSort] at ha
      subst hfa
      have hak : a = k := by
        rw [← hrk]
      exact hak ▸ ha
    · intro hk
      exact ⟨_, List.mem_map.mpr ⟨k, (List.mem_insertionSort pairLeP).mpr hk,
        rfl⟩, rfl⟩

theorem generate_monthly_spec_witness :
    (⟨"o/r", "2025-01", 8, 3, 0, 0, 0⟩ : MonthlyRow).views =
      sumBy (([⟨"2025-01-01", "o/r", 5, 2⟩, ⟨"2025-01-02", "o/r", 3, 1⟩] :
        List ViewRow).filter (fun x => (x.repo, strTake x.date 7) =
          ((⟨"o/r", "2025-01", 8, 3, 0, 0, 0⟩ : MonthlyRow).repo,
            (⟨"o/r", "2025-01", 8, 3, 0, 0, 0⟩ : MonthlyRow).month)))
        (fun x => x.views) := by
  have h := generate_monthly_spec
    [⟨"2025-01-01", "o/r", 5, 2⟩, ⟨"2025-01-02", "o/r", 3, 1⟩] [] []
  have hmem : (⟨"o/r", "2025-01", 8, 3, 0, 0, 0⟩ : MonthlyRow) ∈
      generate_monthly
        [⟨"2025-01-01", "o/r", 5, 2⟩, ⟨"2025-01-02", "o/r", 3, 1⟩] [] [] := by
    rw [h.2.2.2]
    exact List.mem_singleton.mpr rfl
  exact (h.2.1 _ hmem).1

/-! ### Claim theorems: JSON export -/

/-- The five cumulative totals carried by a per-repo JSON object. -/
def totalsOf (j : RepoJson) : Nat × Nat × Nat × Nat × Nat :=
  (j.total_views, j.total_unique_visitors, j.total_clones,
    j.total_unique_cloners, j.total_downloads)

theorem lookup_eq_none_iff (m : List (String × RepoJson)) (q : String) :
    m.lookup q = none ↔ q ∉ m.map Prod.fst := by
  induction m with
  | nil => simp [List.lookup]
  | cons p m ih =>
    obtain ⟨a, b⟩ := p
    simp only [List.lookup, List.map_cons, List.mem_cons]
    by_cases h : q = a
    · simp [h]
    · rw [beq_false_of_ne h]
      simp [h, ih]

theorem lookup_append_ne (m : List (String × RepoJson)) (k q : String)
    (v : RepoJson) (h : q ≠ k) : (m ++ [(k, v)]).lookup q = m.lookup q := by
  induction m with
  | nil => simp [List.lookup, beq_false_of_ne h]
  | cons p m ih =>
    obtain ⟨a, b⟩ := p
    simp only [List.cons_append, List.lookup]
    cases hqa : (q == a)
    · exact ih
    · rfl

theorem lookup_append_self (m : List (String × RepoJson)) (k : String)
    (v : RepoJson) (h : m.lookup k = none) :
    (m ++ [(k, v)]).lookup k = some v := by
  induction m with
  | nil => simp [List.lookup]
  | cons p m ih =>
    obtain ⟨a, b⟩ := p
    simp only [List.lookup] at h
    cases hka : (k == a)
    · rw [hka] at h
      simp only [List.cons_append, List.lookup, hka]
      exact ih h
    · rw [hka] at h
      cases h

theorem lookup_map_overwrite (k q : String) (v : RepoJson) (h : q ≠ k) :
    ∀ m : List (String × RepoJson),
      (m.map (fun p => if p.1 = k then (k, v) else p)).lookup q =
        m.lookup q := by
  intro m
  induction m with
  | nil => rfl
  | cons p m ih =>
    obtain ⟨a, b⟩ := p
    simp only [List.map_cons]
    by_cases hak : a = k
    · subst hak
      rw [if_pos (show (a, b).1 = a from rfl)]
      rw [List.lookup_cons, List.lookup_cons]
      cases hqa : (q == a)
      · exact ih
      · exact absurd (eq_of_beq hqa) h
    · rw [if_neg (show ¬(a, b).1 = k from hak)]
      rw [List.lookup_cons, List.lookup_cons]
      cases hqa : (q == a)
      · exact ih
      · rfl

theorem lookup_dictInsert_ne (m : List (String × RepoJson)) (k q : String)
    (v : RepoJson) (h : q ≠ k) : (dictInsert m k v).lookup q = m.lookup q := by
  unfold dictInsert
  split
  · exact lookup_map_overwrite k q v h m
  · exact lookup_append_ne m k q v h

theorem map_fst_updateRepo (m : List (String × RepoJson)) (k : String)
    (f : RepoJson → RepoJson) :
    (updateRepo m k f).map Prod.fst = m.map Prod.fst := by
  unfold updateRepo
  induction m with
  | nil => rfl
  | cons p m ih =>
    obtain ⟨a, b⟩ := p
    by_cases h : (a, b).1 = k
    · simp only [List.map_cons, if_pos h, ih]
    · simp only [List.map_cons, if_neg h, ih]

theorem lookup_updateRepo_totals (k q : String) (f : RepoJson → RepoJson)
    (hf : ∀ j, totalsOf (f j) = totalsOf j) :
    ∀ m : List (String × RepoJson),
      ((updateRepo m k f).lookup q).map totalsOf =
        (m.lookup q).map totalsOf := by
  intro m
  induction m with
  | nil => rfl
  | cons p m ih =>
    obtain ⟨a, b⟩ := p
    simp only [updateRepo, List.map_cons]
    by_cases hak : (a, b).1 = k
    · rw [if_pos hak]
      rw [List.lookup_cons, List.lookup_cons]
      cases hqa : (q == a)
      · exact ih
      · simp [hf]
    · rw [if_neg hak]
      rw [List.lookup_cons, List.lookup_cons]
      cases hqa : (q == a)
      · exact ih
      · rfl

theorem dictInsert_of_absent (m : List (String × RepoJson)) (k : String)
    (v : RepoJson) (h : m.lookup k = none) :
    dictInsert m k v = m ++ [(k, v)] := by
  unfold dictInsert
  rw [h]
  rfl

theorem seed_fold_lookup_of_not_mem :
    ∀ (rest : List SummaryRow) (m : List (String × RepoJson)) (q : String),
      q ∉ rest.map (fun s => s.repo) →
      (rest.foldl (fun m s => dictInsert m s.repo (jsonFromSummaryRow s))
        m).lookup q = m.lookup q := by
  intro rest
  induction rest with
  | nil => intro m q _; rfl
  | cons s0 rest ih =>
    intro m q hq
    simp only [List.map_cons, List.mem_cons, not_or] at hq
    rw [List.foldl_cons, ih _ q hq.2, lookup_dictInsert_ne _ _ _ _ hq.1]

theorem seed_keys :
    ∀ (summary : List SummaryRow) (m : List (String × RepoJson)),
      (∀ s ∈ summary, s.repo ∉ m.map Prod.fst) →
      (summary.map (fun s => s.repo)).Nodup →
      (summary.foldl (fun m s => dictInsert m s.repo (jsonFromSummaryRow s))
          m).map Prod.fst = m.map Prod.fst ++ summary.map (fun s => s.repo) := by
  intro summary
  induction summary with
  | nil => intro m _ _; simp
  | cons s0 rest ih =>
    intro m hdisj hnd
    rw [List.foldl_cons]
    have hnone : m.lookup s0.repo = none :=
      (lookup_eq_none_iff m s0.repo).mpr (hdisj s0 (List.mem_cons_self _ _))
    rw [dictInsert_of_absent m _ _ hnone]
    simp only [List.map_cons, List.nodup_cons] at hnd
    have hdisj2 : ∀ s ∈ rest,
        s.repo ∉ (m ++ [(s0.repo, jsonFromSummaryRow s0)]).map Prod.fst := by
      intro s hs
      have h1 : s.repo ∉ m.map Prod.fst := hdisj s (List.mem_cons_of_mem _ hs)
      have h2 : ¬s.repo = s0.repo := fun heq =>
        hnd.1 (heq ▸ List.mem_map.mpr ⟨s, hs, rfl⟩)
      simp [h1, h2]
    rw [ih (m ++ [(s0.repo, jsonFromSummaryRow s0)]) hdisj2 hnd.2]
    simp

theorem seed_lookup :
    ∀ (summary : List SummaryRow) (m : List (String × RepoJson)),
      (∀ s ∈ summary, s.repo ∉ m.map Prod.fst) →
      (summary.map (fun s => s.repo)).Nodup →
      ∀ s ∈ summary,
        (summary.foldl (fun m s => dictInsert m s.repo (jsonFromSummaryRow s))
          m).lookup s.repo = some (jsonFromSummaryRow s) := by
  intro summary
  induction summary with
  | nil => intro m _ _ s hs; simp at hs
  | cons s0 rest ih =>
    intro m hdisj hnd s hs
    rw [List.foldl_cons]
    have hnone : m.lookup s0.repo = none :=
      (lookup_eq_none_iff m s0.repo).mpr (hdisj s0 (List.mem_cons_self _ _))
    rw [dictInsert_of_absent m _ _ hnone]
    simp only [List.map_cons, List.nodup_cons] at hnd
    have hdisj2 : ∀ x ∈ rest,
        x.repo ∉ (m ++ [(s0.repo, jsonFromSummaryRow s0)]).map Prod.fst := by
      intro x hx
      have h1 : x.repo ∉ m.map Prod.fst := hdisj x (List.mem_cons_of_mem _ hx)
      have h2 : ¬x.repo = s0.repo := fun heq =>
        hnd.1 (heq ▸ List.mem_map.mpr ⟨x, hx, rfl⟩)
      simp [h1, h2]
    rcases List.mem_cons.mp hs with rfl | hs2
    · rw [seed_fold_lookup_of_not_mem rest _ s.repo hnd.1]
      exact lookup_append_self m _ _ hnone
    · exact ih (m ++ [(s0.repo, jsonFromSummaryRow s0)]) hdisj2 hnd.2 s hs2

theorem jviews_fold_fst (l : List ViewRow) :
    ∀ m, (l.foldl (fun m r => updateRepo m r.repo (fun j =>
        { j with daily_views :=
            j.daily_views ++ [⟨r.date, r.views, r.unique_visitors⟩] })) m).map
      Prod.fst = m.map Prod.fst := by
  induction l with
  | nil => intro m; rfl
  | cons r l ih => intro m; rw [List.foldl_cons, ih, map_fst_updateRepo]

theorem jclones_fold_fst (l : List CloneRow) :
    ∀ m, (l.foldl (fun m r => updateRepo m r.repo (fun j =>
        { j with daily_clones :=
            j.daily_clones ++ [⟨r.date, r.clones, r.unique_cloners⟩] })) m).map
      Prod.fst = m.map Prod.fst := by
  induction l with
  | nil => intro m; rfl
  | cons r l ih => intro m; rw [List.foldl_cons, ih, map_fst_updateRepo]

theorem jmonthly_fold_fst (l : List MonthlyRow) :
    ∀ m, (l.foldl (fun m r => updateRepo m r.repo (fun j =>
        { j with monthly :=
            j.monthly ++ [⟨r.month, r.views, r.clones, r.downloads⟩] })) m).map
      Prod.fst = m.map Prod.fst := by
  induction l with
  | nil => intro m; rfl
  | cons r l ih => intro m; rw [List.foldl_cons, ih, map_fst_updateRepo]

theorem jviews_fold_totals (l : List ViewRow) :
    ∀ m q, ((l.foldl (fun m r => updateRepo m r.repo (fun j =>
        { j with daily_views :=
            j.daily_views ++ [⟨r.date, r.views, r.unique_visitors⟩] }))
      m).lookup q).map totalsOf = (m.lookup q).map totalsOf := by
  induction l with
  | nil => intro m q; rfl
  | cons r l ih =>
    intro m q
    rw [List.foldl_cons, ih]
    apply lookup_updateRepo_totals
    intro j
    rfl

theorem jclones_fold_totals (l : List CloneRow) :
    ∀ m q, ((l.foldl (fun m r => updateRepo m r.repo (fun j =>
        { j with daily_clones :=
            j.daily_clones ++ [⟨r.date, r.clones, r.unique_cloners⟩] }))
      m).lookup q).map totalsOf = (m.lookup q).map totalsOf := by
  induction l with
  | nil => intro m q; rfl
  | cons r l ih =>
    intro m q
    rw [List.foldl_cons, ih]
    apply lookup_updateRepo_totals
    intro j
    rfl

theorem jmonthly_fold_totals (l : List MonthlyRow) :
    ∀ m q, ((l.foldl (fun m r => updateRepo m r.repo (fun j =>
        { j with monthly :=
            j.monthly ++ [⟨r.month, r.views, r.clones, r.downloads⟩] }))
      m).lookup q).map totalsOf = (m.lookup q).map totalsOf := by
  induction l with
  | nil => intro m q; rfl
  | cons r l ih =>
    intro m q
    rw [List.foldl_cons, ih]
    apply lookup_updateRepo_totals
    intro j
    rfl

/-- C5: in the JSON export, the repo keys are exactly the repos of the
summary rows (in order), each carrying that summary row's five totals, and a
repo with no summary row never appears — whatever raw view, clone or monthly
rows it has are silently dropped. Stated for summaries without duplicate repo
rows, which is what `generate_summary` produces. -/
theorem generate_json_spec (today : String) (summary : List SummaryRow)
    (views : List ViewRow) (clones : List CloneRow) (monthly : List MonthlyRow)
    (hnd : (summary.map (fun s => s.repo)).Nodup) :
    (generate_json today summary views clones monthly).generated = today ∧
    (generate_json today summary views clones monthly).repos.map Prod.fst =
      summary.map (fun s => s.repo) ∧
    (∀ s ∈ summary,
      ((generate_json today summary views clones monthly).repos.lookup
        s.repo).map totalsOf =
        some (s.total_views, s.total_unique_visitors, s.total_clones,
          s.total_unique_cloners, s.total_downloads)) ∧
    (∀ q, q ∉ summary.map (fun s => s.repo) →
      (generate_json today summary views clones monthly).repos.lookup q =
        none) := by
  simp only [generate_json]
  refine ⟨trivial, ?_, ?_, ?_⟩
  · rw [jmonthly_fold_fst, jclones_fold_fst, jviews_fold_fst,
      seed_keys summary [] (by simp) hnd]
    rfl
  · intro s hs
    rw [jmonthly_fold_totals, jclones_fold_totals, jviews_fold_totals,
      seed_lookup summary [] (by simp) hnd s hs]
    rfl
  · intro q hq
    rw [lookup_eq_none_iff, jmonthly_fold_fst, jclones_fold_fst,
      jviews_fold_fst, seed_keys summary [] (by simp) hnd]
    simpa using hq

theorem generate_json_spec_witness :
    (generate_json "2025-10-12" [⟨"o/r", 1, 2, 3, 4, 5, "2025-01-01"⟩]
      [⟨"2025-01-02", "other", 9, 9⟩] [] []).generated = "2025-10-12" ∧
    (generate_json "2025-10-12" [⟨"o/r", 1, 2, 3, 4, 5, "2025-01-01"⟩]
      [⟨"2025-01-02", "other", 9, 9⟩] [] []).repos.map Prod.fst = ["o/r"] ∧
    (generate_json "2025-10-12" [⟨"o/r", 1, 2, 3, 4, 5, "2025-01-01"⟩]
      [⟨"2025-01-02", "other", 9, 9⟩] [] []).repos.lookup "other" = none := by
  have h := generate_json_spec "2025-10-12" [⟨"o/r", 1, 2, 3, 4, 5, "2025-01-01"⟩]
    [⟨"2025-01-02", "other", 9, 9⟩] [] [] (by decide)
  exact ⟨h.1, h.2.1, h.2.2.2 "other" (by decide)⟩

/-! ### Claim theorems: orchestrator error isolation -/

/-- Replace an exception by an empty successful response. -/
def catchEmpty (e : Except String (List α)) : Except String (List α) :=
  match e with
  | .error _ => .ok []
  | .ok v => .ok v

/-- The same API with every exception replaced by an empty response: a run
against it is the reference behaviour in which a failed pairing contributes
exactly zero rows. -/
def apiCatch (api : Api) : Api :=
  { views := fun o r => catchEmpty (api.views o r)
    clones := fun o r => catchEmpty (api.clones o r)
    referrers := fun o r => catchEmpty (api.referrers o r)
    paths := fun o r => catchEmpty (api.paths o r)
    releases := fun o r => catchEmpty (api.releases o r) }

theorem stepViews_state_eq (api : Api) (o r : String) (st : RunSt) :
    (stepViews api o r st).1 = (stepViews (apiCatch api) o r st).1 := by
  simp only [stepViews, apiCatch]
  cases h : api.views o r with
  | error e => rfl
  | ok items => rfl

theorem stepClones_state_eq (api : Api) (o r : String) (st : RunSt) :
    (stepClones api o r st).1 = (stepClones (apiCatch api) o r st).1 := by
  simp only [stepClones, apiCatch]
  cases h : api.clones o r with
  | error e => rfl
  | ok items => rfl

theorem stepReferrers_state_eq (api : Api) (today o r : String) (st : RunSt) :
    (stepReferrers api today o r st).1 =
      (stepReferrers (apiCatch api) today o r st).1 := by
  simp only [stepReferrers, apiCatch]
  cases h : api.referrers o r with
  | error e => rfl
  | ok items => rfl

theorem stepPaths_state_eq (api : Api) (today o r : String) (st : RunSt) :
    (stepPaths api today o r st).1 =
      (stepPaths (apiCatch api) today o r st).1 := by
  simp only [stepPaths, apiCatch]
  cases h : api.paths o r with
  | error e => rfl
  | ok items => rfl

theorem stepReleases_state_eq (api : Api) (today o r : String) (st : RunSt) :
    (stepReleases api today o r st).1 =
      (stepReleases (apiCatch api) today o r st).1 := by
  simp only [stepReleases, apiCatch]
  cases h : api.releases o r with
  | error e => rfl
  | ok items => rfl

theorem runRepo_state_eq (api : Api) (today o r : String) (st : RunSt) :
    (runRepo api today o r st).1 = (runRepo (apiCatch api) today o r st).1 := by
  simp only [runRepo]
  rw [stepViews_state_eq, stepClones_state_eq, stepReferrers_state_eq,
    stepPaths_state_eq, stepReleases_state_eq]

/-- State-only version of the repo loop, used to compare runs whose logs
differ. -/
def processReposSt (api : Api) (today : String) :
    List String → RunSt → Except String RunSt
  | [], rs => .ok rs
  | raw :: rest, rs =>
    match parseRepoPair raw with
    | none => .error ("not enough values to unpack: " ++ raw)
    | some (o, r) => processReposSt api today rest (runRepo api today o r rs).1

theorem processRepos_map_fst (api : Api) (today : String) :
    ∀ (repos : List String) (rs : RunSt),
      (processRepos api today repos rs).map Prod.fst =
        processReposSt api today repos rs := by
  intro repos
  induction repos with
  | nil => intro rs; rfl
  | cons raw rest ih =>
    intro rs
    simp only [processRepos, processReposSt]
    cases hp : parseRepoPair raw with
    | none => rfl
    | some pr =>
      obtain ⟨o, r⟩ := pr
      show Except.map Prod.fst
          (match processRepos api today rest ((runRepo api today o r rs).1) with
            | .error e => .error e
            | .ok q => .ok (q.1, (runRepo api today o r rs).2 ++ q.2)) =
        processReposSt api today rest ((runRepo api today o r rs).1)
      rw [← ih ((runRepo api today o r rs).1)]
      cases hin : processRepos api today rest ((runRepo api today o r rs).1) with
      | error e => rfl
      | ok q => rfl

theorem processReposSt_catch (api : Api) (today : String) :
    ∀ (repos : List String) (rs : RunSt),
      processReposSt api today repos rs =
        processReposSt (apiCatch api) today repos rs := by
  intro repos
  induction repos with
  | nil => intro rs; rfl
  | cons raw rest ih =>
    intro rs
    simp only [processReposSt]
    cases hp : parseRepoPair raw with
    | none => rfl
    | some pr =>
      obtain ⟨o, r⟩ := pr
      show processReposSt api today rest (runRepo api today o r rs).1 =
        processReposSt (apiCatch api) today rest
          (runRepo (apiCatch api) today o r rs).1
      rw [← runRepo_state_eq]
      exact ih ((runRepo api today o r rs).1)

theorem processRepos_ok (api : Api) (today : String) :
    ∀ (repos : List String) (rs : RunSt),
      (∀ raw ∈ repos, (parseRepoPair raw).isSome) →
      ∃ out, processRepos api today repos rs = .ok out := by
  intro repos
  induction repos with
  | nil => intro rs _; exact ⟨_, rfl⟩
  | cons raw rest ih =>
    intro rs h
    cases hp : parseRepoPair raw with
    | none =>
      have := h raw (List.mem_cons_self _ _)
      rw [hp] at this
      cases this
    | some pr =>
      obtain ⟨o, r⟩ := pr
      obtain ⟨out, hout⟩ := ih ((runRepo api today o r rs).1)
        (fun x hx => h x (List.mem_cons_of_mem _ hx))
      refine ⟨(out.1, (runRepo api today o r rs).2 ++ out.2), ?_⟩
      simp only [processRepos, hp]
      rw [hout]

/-- C6: an exception in any collector is caught by the orchestrator, which
logs the collector name and the message and leaves the state of that pairing
unchanged; a run against a failing API produces exactly the state of the run
in which every failing endpoint returns no items, so all other collectors
and repos still run and persist their rows; and whenever the configured
repo specs parse, the whole run completes successfully. -/
theorem main_error_isolation (api : Api) (today : String)
    (repos : List String) (st : Stats) :
    (∀ o r stt e, api.views o r = .error e →
      stepViews api o r stt = (stt, "  Views: SKIP - " ++ e)) ∧
    (∀ o r stt e, api.clones o r = .error e →
      stepClones api o r stt = (stt, "  Clones: SKIP - " ++ e)) ∧
    (∀ o r stt e, api.referrers o r = .error e →
      stepReferrers api today o r stt = (stt, "  Referrers: SKIP - " ++ e)) ∧
    (∀ o r stt e, api.paths o r = .error e →
      stepPaths api today o r stt = (stt, "  Paths: SKIP - " ++ e)) ∧
    (∀ o r stt e, api.releases o r = .error e →
      stepReleases api today o r stt = (stt, "  Releases: SKIP - " ++ e)) ∧
    (main api today repos st).map Prod.fst =
      (main (apiCatch api) today repos st).map Prod.fst ∧
    ((∀ raw ∈ repos, (parseRepoPair raw).isSome) →
      ∃ out, main api today repos st = .ok out) := by
  refine ⟨?_, ?_, ?_, ?_, ?_, ?_, ?_⟩
  · intro o r stt e h; unfold stepViews; rw [h]
  · intro o r stt e h; unfold stepClones; rw [h]
  · intro o r stt e h; unfold stepReferrers; rw [h]
  · intro o r stt e h; unfold stepPaths; rw [h]
  · intro o r stt e h; unfold stepReleases; rw [h]
  · unfold main
    have hkey : (processRepos api today repos (initRun st)).map Prod.fst =
        (processRepos (apiCatch api) today repos (initRun st)).map Prod.fst := by
      rw [processRepos_map_fst, processRepos_map_fst, processReposSt_catch]
    cases hL : processRepos api today repos (initRun st) with
    | error e =>
      cases hR : processRepos (apiCatch api) today repos (initRun st) with
      | error e2 =>
        rw [hL, hR] at hkey
        simp only [Except.map] at hkey
        injection hkey with h1
        subst h1
        rfl
      | ok q =>
        rw [hL, hR] at hkey
        simp [Except.map] at hkey
    | ok p =>
      cases hR : processRepos (apiCatch api) today repos (initRun st) with
      | error e2 =>
        rw [hL, hR] at hkey
        simp [Except.map] at hkey
      | ok q =>
        rw [hL, hR] at hkey
        simp only [Except.map] at hkey
        injection hkey with h1
        simp [Except.map, h1]
  · intro h
    obtain ⟨out, hout⟩ := processRepos_ok api today repos (initRun st) h
    unfold main
    rw [hout]
    exact ⟨_, rfl⟩

theorem main_error_isolation_witness :
    stepViews
        { views := fun _ _ => .error "boom"
          clones := fun _ _ => .ok []
          referrers := fun _ _ => .ok []
          paths := fun _ _ => .ok []
          releases := fun _ _ => .ok [] } "o" "r"
        ⟨none, none, none, none, none, [], [], [], [], []⟩ =
      (⟨none, none, none, none, none, [], [], [], [], []⟩,
        "  Views: SKIP - boom") ∧
    ∃ out,
      main
        { views := fun _ _ => .error "boom"
          clones := fun _ _ => .ok []
          referrers := fun _ _ => .ok []
          paths := fun _ _ => .ok []
          releases := fun _ _ => .ok [] } "2025-10-12" ["o/r"]
        ⟨none, none, none, none, none, none, none, none⟩ = .ok out := by
  have h := main_error_isolation
    { views := fun _ _ => .error "boom"
      clones := fun _ _ => .ok []
      referrers := fun _ _ => .ok []
      paths := fun _ _ => .ok []
      releases := fun _ _ => .ok [] } "2025-10-12" ["o/r"]
    ⟨none, none, none, none, none, none, none, none⟩
  refine ⟨h.1 "o" "r" _ "boom" rfl, h.2.2.2.2.2.2 ?_⟩
  intro raw hraw
  rw [List.mem_singleton] at hraw
  subst hraw
  decide

/-! ### Claim theorems: idempotence of the full pass -/

theorem collect_views_mono (owner repo : String) (items : List TrafficItem)
    (t : Option (List ViewRow)) (keys : List Key) :
    ∀ k ∈ keys, k ∈ (collect_views owner repo items t keys).2.1 := by
  unfold collect_views
  exact fun k hk => collectGen_keys_mono
    (fun v : TrafficItem => [strTake v.timestamp 10, owner ++ "/" ++ repo])
    (fun v : TrafficItem =>
      (⟨strTake v.timestamp 10, owner ++ "/" ++ repo, v.count, v.uniques⟩ : ViewRow))
    items t keys 0 hk

theorem collect_views_complete (owner repo : String) (items : List TrafficItem)
    (t : Option (List ViewRow)) (keys : List Key) :
    ∀ v ∈ items, [strTake v.timestamp 10, owner ++ "/" ++ repo] ∈
      (collect_views owner repo items t keys).2.1 := by
  unfold collect_views
  exact collectGen_complete
    (fun v : TrafficItem => [strTake v.timestamp 10, owner ++ "/" ++ repo])
    (fun v : TrafficItem =>
      (⟨strTake v.timestamp 10, owner ++ "/" ++ repo, v.count, v.uniques⟩ : ViewRow))
    items t keys 0

theorem collect_views_inv (owner repo : String) (items : List TrafficItem)
    (t : Option (List ViewRow)) (keys : List Key)
    (h : ∀ k, k ∈ keys ↔ k ∈ loadKeys t viewRowKey) :
    ∀ k, k ∈ (collect_views owner repo items t keys).2.1 ↔
      k ∈ loadKeys (collect_views owner repo items t keys).1 viewRowKey := by
  unfold collect_views
  exact collectGen_inv
    (fun v : TrafficItem => [strTake v.timestamp 10, owner ++ "/" ++ repo])
    (fun v : TrafficItem =>
      (⟨strTake v.timestamp 10, owner ++ "/" ++ repo, v.count, v.uniques⟩ : ViewRow))
    viewRowKey (fun a => rfl) items t keys 0 h

theorem collect_views_noop (owner repo : String) (items : List TrafficItem)
    (t : Option (List ViewRow)) (keys : List Key)
    (h : ∀ v ∈ items, [strTake v.timestamp 10, owner ++ "/" ++ repo] ∈ keys) :
    collect_views owner repo items t keys = (t, keys, 0) := by
  unfold collect_views
  exact collectGen_noop _ _ items t keys 0 h

theorem collect_clones_mono (owner repo : String) (items : List TrafficItem)
    (t : Option (List CloneRow)) (keys : List Key) :
    ∀ k ∈ keys, k ∈ (collect_clones owner repo items t keys).2.1 := by
  unfold collect_clones
  exact fun k hk => collectGen_keys_mono
    (fun c : TrafficItem => [strTake c.timestamp 10, owner ++ "/" ++ repo])
    (fun c : TrafficItem =>
      (⟨strTake c.timestamp 10, owner ++ "/" ++ repo, c.count, c.uniques⟩ : CloneRow))
    items t keys 0 hk

theorem collect_clones_complete (owner repo : String) (items : List TrafficItem)
    (t : Option (List CloneRow)) (keys : List Key) :
    ∀ c ∈ items, [strTake c.timestamp 10, owner ++ "/" ++ repo] ∈
      (collect_clones owner repo items t keys).2.1 := by
  unfold collect_clones
  exact collectGen_complete
    (fun c : TrafficItem => [strTake c.timestamp 10, owner ++ "/" ++ repo])
    (fun c : TrafficItem =>
      (⟨strTake c.timestamp 10, owner ++ "/" ++ repo, c.count, c.uniques⟩ : CloneRow))
    items t keys 0

theorem collect_clones_inv (owner repo : String) (items : List TrafficItem)
    (t : Option (List CloneRow)) (keys : List Key)
    (h : ∀ k, k ∈ keys ↔ k ∈ loadKeys t cloneRowKey) :
    ∀ k, k ∈ (collect_clones owner repo items t keys).2.1 ↔
      k ∈ loadKeys (collect_clones owner repo items t keys).1 cloneRowKey := by
  unfold collect_clones
  exact collectGen_inv
    (fun c : TrafficItem => [strTake c.timestamp 10, owner ++ "/" ++ repo])
    (fun c : TrafficItem =>
      (⟨strTake c.timestamp 10, owner ++ "/" ++ repo, c.count, c.uniques⟩ : CloneRow))
    cloneRowKey (fun a => rfl) items t keys 0 h

theorem collect_clones_noop (owner repo : String) (items : List TrafficItem)
    (t : Option (List CloneRow)) (keys : List Key)
    (h : ∀ c ∈ items, [strTake c.timestamp 10, owner ++ "/" ++ repo] ∈ keys) :
    collect_clones owner repo items t keys = (t, keys, 0) := by
  unfold collect_clones
  exact collectGen_noop _ _ items t keys 0 h

theorem collect_referrers_mono (today owner repo : String)
    (items : List RefItem) (t : Option (List ReferrerRow)) (keys : List Key) :
    ∀ k ∈ keys, k ∈ (collect_referrers today owner repo items t keys).2.1 := by
  unfold collect_referrers
  exact fun k hk => collectGen_keys_mono
    (fun r : RefItem => [today, owner ++ "/" ++ repo, r.referrer])
    (fun r : RefItem =>
      (⟨today, owner ++ "/" ++ repo, r.referrer, r.count, r.uniques⟩ : ReferrerRow))
    items t keys 0 hk

theorem collect_referrers_complete (today owner repo : String)
    (items : List RefItem) (t : Option (List ReferrerRow)) (keys : List Key) :
    ∀ i ∈ items, [today, owner ++ "/" ++ repo, i.referrer] ∈
      (collect_referrers today owner repo items t keys).2.1 := by
  unfold collect_referrers
  exact collectGen_complete
    (fun r : RefItem => [today, owner ++ "/" ++ repo, r.referrer])
    (fun r : RefItem =>
      (⟨today, owner ++ "/" ++ repo, r.referrer, r.count, r.uniques⟩ : ReferrerRow))
    items t keys 0

theorem collect_referrers_inv (today owner repo : String)
    (items : List RefItem) (t : Option (List ReferrerRow)) (keys : List Key)
    (h : ∀ k, k ∈ keys ↔ k ∈ loadKeys t referrerRowKey) :
    ∀ k, k ∈ (collect_referrers today owner repo items t keys).2.1 ↔
      k ∈ loadKeys (collect_referrers today owner repo items t keys).1
        referrerRowKey := by
  unfold collect_referrers
  exact collectGen_inv
    (fun r : RefItem => [today, owner ++ "/" ++ repo, r.referrer])
    (fun r : RefItem =>
      (⟨today, owner ++ "/" ++ repo, r.referrer, r.count, r.uniques⟩ : ReferrerRow))
    referrerRowKey (fun a => rfl) items t keys 0 h

theorem collect_referrers_noop (today owner repo : String)
    (items : List RefItem) (t : Option (List ReferrerRow)) (keys : List Key)
    (h : ∀ i ∈ items, [today, owner ++ "/" ++ repo, i.referrer] ∈ keys) :
    collect_referrers today owner repo items t keys = (t, keys, 0) := by
  unfold collect_referrers
  exact collectGen_noop _ _ items t keys 0 h

theorem collect_paths_mono (today owner repo : String)
    (items : List PathItem) (t : Option (List PathRow)) (keys : List Key) :
    ∀ k ∈ keys, k ∈ (collect_paths today owner repo items t keys).2.1 := by
  unfold collect_paths
  exact fun k hk => collectGen_keys_mono
    (fun p : PathItem => [today, owner ++ "/" ++ repo, p.path])
    (fun p : PathItem =>
      (⟨today, owner ++ "/" ++ repo, p.path, p.title, p.count, p.uniques⟩ : PathRow))
    items t keys 0 hk

theorem collect_paths_complete (today owner repo : String)
    (items : List PathItem) (t : Option (List PathRow)) (keys : List Key) :
    ∀ p ∈ items, [today, owner ++ "/" ++ repo, p.path] ∈
      (collect_paths today owner repo items t keys).2.1 := by
  unfold collect_paths
  exact collectGen_complete
    (fun p : PathItem => [today, owner ++ "/" ++ repo, p.path])
    (fun p : PathItem =>
      (⟨today, owner ++ "/" ++ repo, p.path, p.title, p.count, p.uniques⟩ : PathRow))
    items t keys 0

theorem collect_paths_inv (today owner repo : String)
    (items : List PathItem) (t : Option (List PathRow)) (keys : List Key)
    (h : ∀ k, k ∈ keys ↔ k ∈ loadKeys t pathRowKey) :
    ∀ k, k ∈ (collect_paths today owner repo items t keys).2.1 ↔
      k ∈ loadKeys (collect_paths today owner repo items t keys).1 pathRowKey := by
  unfold collect_paths
  exact collectGen_inv
    (fun p : PathItem => [today, owner ++ "/" ++ repo, p.path])
    (fun p : PathItem =>
      (⟨today, owner ++ "/" ++ repo, p.path, p.title, p.count, p.uniques⟩ : PathRow))
    pathRowKey (fun a => rfl) items t keys 0 h

theorem collect_paths_noop (today owner repo : String)
    (items : List PathItem) (t : Option (List PathRow)) (keys : List Key)
    (h : ∀ p ∈ items, [today, owner ++ "/" ++ repo, p.path] ∈ keys) :
    collect_paths today owner repo items t keys = (t, keys, 0) := by
  unfold collect_paths
  exact collectGen_noop _ _ items t keys 0 h

theorem collect_releases_mono (today owner repo : String)
    (rels : List Release) (t : Option (List ReleaseRow)) (keys : List Key) :
    ∀ k ∈ keys, k ∈ (collect_releases today owner repo rels t keys).2.1 := by
  unfold collect_releases
  exact fun k hk => collectGen_keys_mono
    (fun p : String × Asset => [today, owner ++ "/" ++ repo, p.1, p.2.name])
    (fun p : String × Asset =>
      (⟨today, owner ++ "/" ++ repo, p.1, p.2.name, p.2.download_count⟩ : ReleaseRow))
    (rels.flatMap (fun rel => rel.assets.map (fun a => (rel.tag_name, a))))
    t keys 0 hk

theorem collect_releases_complete (today owner repo : String)
    (rels : List Release) (t : Option (List ReleaseRow)) (keys : List Key) :
    ∀ rel ∈ rels, ∀ a ∈ rel.assets,
      [today, owner ++ "/" ++ repo, rel.tag_name, a.name] ∈
        (collect_releases today owner repo rels t keys).2.1 := by
  intro rel hrel a ha
  unfold collect_releases
  exact collectGen_complete
    (fun p : String × Asset => [today, owner ++ "/" ++ repo, p.1, p.2.name])
    (fun p : String × Asset =>
      (⟨today, owner ++ "/" ++ repo, p.1, p.2.name, p.2.download_count⟩ : ReleaseRow))
    (rels.flatMap (fun rel => rel.assets.map (fun a => (rel.tag_name, a))))
    t keys 0 (rel.tag_name, a)
    (List.mem_flatMap.mpr ⟨rel, hrel, List.mem_map.mpr ⟨a, ha, rfl⟩⟩)

theorem collect_releases_inv (today owner repo : String)
    (rels : List Release) (t : Option (List ReleaseRow)) (keys : List Key)
    (h : ∀ k, k ∈ keys ↔ k ∈ loadKeys t releaseRowKey) :
    ∀ k, k ∈ (collect_releases today owner repo rels t keys).2.1 ↔
      k ∈ loadKeys (collect_releases today owner repo rels t keys).1
        releaseRowKey := by
  unfold collect_releases
  exact collectGen_inv
    (fun p : String × Asset => [today, owner ++ "/" ++ repo, p.1, p.2.name])
    (fun p : String × Asset =>
      (⟨today, owner ++ "/" ++ repo, p.1, p.2.name, p.2.download_count⟩ : ReleaseRow))
    releaseRowKey (fun a => rfl)
    (rels.flatMap (fun rel => rel.assets.map (fun a => (rel.tag_name, a))))
    t keys 0 h

theorem collect_releases_noop (today owner repo : String)
    (rels : List Release) (t : Option (List ReleaseRow)) (keys : List Key)
    (h : ∀ rel ∈ rels, ∀ a ∈ rel.assets,
      [today, owner ++ "/" ++ repo, rel.tag_name, a.name] ∈ keys) :
    collect_releases today owner repo rels t keys = (t, keys, 0) := by
  unfold collect_releases
  apply collectGen_noop
  intro p hp
  obtain ⟨rel, hrel, hp2⟩ := List.mem_flatMap.mp hp
  obtain ⟨a, ha, rfl⟩ := List.mem_map.mp hp2
  exact h rel hrel a ha

/-- The in-memory key sets agree with the keys loadable from the tables: the
invariant `main` establishes by loading `all_keys` and each collector
maintains by adding exactly the key of each appended row. -/
def INV (st : RunSt) : Prop :=
  (∀ k, k ∈ st.kviews ↔ k ∈ loadKeys st.views viewRowKey) ∧
  (∀ k, k ∈ st.kclones ↔ k ∈ loadKeys st.clones cloneRowKey) ∧
  (∀ k, k ∈ st.kreferrers ↔ k ∈ loadKeys st.referrers referrerRowKey) ∧
  (∀ k, k ∈ st.kpaths ↔ k ∈ loadKeys st.paths pathRowKey) ∧
  (∀ k, k ∈ st.kreleases ↔ k ∈ loadKeys st.releases releaseRowKey)

/-- Pointwise growth of the five in-memory key sets. -/
def keysLe (st st' : RunSt) : Prop :=
  (∀ k ∈ st.kviews, k ∈ st'.kviews) ∧
  (∀ k ∈ st.kclones, k ∈ st'.kclones) ∧
  (∀ k ∈ st.kreferrers, k ∈ st'.kreferrers) ∧
  (∀ k ∈ st.kpaths, k ∈ st'.kpaths) ∧
  (∀ k ∈ st.kreleases, k ∈ st'.kreleases)

theorem keysLe_refl (st : RunSt) : keysLe st st :=
  ⟨fun _ h => h, fun _ h => h, fun _ h => h, fun _ h => h, fun _ h => h⟩

theorem keysLe_trans {a b c : RunSt} (h1 : keysLe a b) (h2 : keysLe b c) :
    keysLe a c :=
  ⟨fun k hk => h2.1 k (h1.1 k hk), fun k hk => h2.2.1 k (h1.2.1 k hk),
    fun k hk => h2.2.2.1 k (h1.2.2.1 k hk),
    fun k hk => h2.2.2.2.1 k (h1.2.2.2.1 k hk),
    fun k hk => h2.2.2.2.2 k (h1.2.2.2.2 k hk)⟩

/-- Every item the API currently returns for `(o, r)` has its natural key in
the corresponding in-memory key set. -/
def keysCovered (api : Api) (today o r : String) (st : RunSt) : Prop :=
  (∀ items, api.views o r = .ok items →
    ∀ v ∈ items, [strTake v.timestamp 10, o ++ "/" ++ r] ∈ st.kviews) ∧
  (∀ items, api.clones o r = .ok items →
    ∀ c ∈ items, [strTake c.timestamp 10, o ++ "/" ++ r] ∈ st.kclones) ∧
  (∀ items, api.referrers o r = .ok items →
    ∀ i ∈ items, [today, o ++ "/" ++ r, i.referrer] ∈ st.kreferrers) ∧
  (∀ items, api.paths o r = .ok items →
    ∀ p ∈ items, [today, o ++ "/" ++ r, p.path] ∈ st.kpaths) ∧
  (∀ rels, api.releases o r = .ok rels →
    ∀ rel ∈ rels, ∀ a ∈ rel.assets,
      [today, o ++ "/" ++ r, rel.tag_name, a.name] ∈ st.kreleases)

theorem keysCovered_mono {api today o r} {st st' : RunSt}
    (hle : keysLe st st') (h : keysCovered api today o r st) :
    keysCovered api today o r st' :=
  ⟨fun items hf v hv => hle.1 _ (h.1 items hf v hv),
    fun items hf c hc => hle.2.1 _ (h.2.1 items hf c hc),
    fun items hf i hi => hle.2.2.1 _ (h.2.2.1 items hf i hi),
    fun items hf p hp => hle.2.2.2.1 _ (h.2.2.2.1 items hf p hp),
    fun rels hf rel hrel a ha =>
      hle.2.2.2.2 _ (h.2.2.2.2 rels hf rel hrel a ha)⟩

theorem stepViews_keysLe (api : Api) (o r : String) (st : RunSt) :
    keysLe st (stepViews api o r st).1 := by
  unfold stepViews
  cases hf : api.views o r with
  | error e => exact keysLe_refl st
  | ok items =>
    exact ⟨collect_views_mono o r items st.views st.kviews,
      fun _ h => h, fun _ h => h, fun _ h => h, fun _ h => h⟩

theorem stepClones_keysLe (api : Api) (o r : String) (st : RunSt) :
    keysLe st (stepClones api o r st).1 := by
  unfold stepClones
  cases hf : api.clones o r with
  | error e => exact keysLe_refl st
  | ok items =>
    exact ⟨fun _ h => h, collect_clones_mono o r items st.clones st.kclones,
      fun _ h => h, fun _ h => h, fun _ h => h⟩

theorem stepReferrers_keysLe (api : Api) (today o r : String) (st : RunSt) :
    keysLe st (stepReferrers api today o r st).1 := by
  unfold stepReferrers
  cases hf : api.referrers o r with
  | error e => exact keysLe_refl st
  | ok items =>
    exact ⟨fun _ h => h, fun _ h => h,
      collect_referrers_mono today o r items st.referrers st.kreferrers,
      fun _ h => h, fun _ h => h⟩

theorem stepPaths_keysLe (api : Api) (today o r : String) (st : RunSt) :
    keysLe st (stepPaths api today o r st).1 := by
  unfold stepPaths
  cases hf : api.paths o r with
  | error e => exact keysLe_refl st
  | ok items =>
    exact ⟨fun _ h => h, fun _ h => h, fun _ h => h,
      collect_paths_mono today o r items st.paths st.kpaths,
      fun _ h => h⟩

theorem stepReleases_keysLe (api : Api) (today o r : String) (st : RunSt) :
    keysLe st (stepReleases api today o r st).1 := by
  unfold stepReleases
  cases hf : api.releases o r with
  | error e => exact keysLe_refl st
  | ok items =>
    exact ⟨fun _ h => h, fun _ h => h, fun _ h => h, fun _ h => h,
      collect_releases_mono today o r items st.releases st.kreleases⟩

theorem runRepo_keysLe (api : Api) (today o r : String) (st : RunSt) :
    keysLe st (runRepo api today o r st).1 := by
  simp only [runRepo]
  exact keysLe_trans (stepViews_keysLe api o r st)
    (keysLe_trans (stepClones_keysLe api o r _)
      (keysLe_trans (stepReferrers_keysLe api today o r _)
        (keysLe_trans (stepPaths_keysLe api today o r _)
          (stepReleases_keysLe api today o r _))))

theorem stepViews_INV (api : Api) (o r : String) (st : RunSt) (h : INV st) :
    INV (stepViews api o r st).1 := by
  unfold stepViews
  cases hf : api.views o r with
  | error e => exact h
  | ok items =>
    exact ⟨collect_views_inv o r items st.views st.kviews h.1,
      h.2.1, h.2.2.1, h.2.2.2.1, h.2.2.2.2⟩

theorem stepClones_INV (api : Api) (o r : String) (st : RunSt) (h : INV st) :
    INV (stepClones api o r st).1 := by
  unfold stepClones
  cases hf : api.clones o r with
  | error e => exact h
  | ok items =>
    exact ⟨h.1, collect_clones_inv o r items st.clones st.kclones h.2.1,
      h.2.2.1, h.2.2.2.1, h.2.2.2.2⟩

theorem stepReferrers_INV (api : Api) (today o r : String) (st : RunSt)
    (h : INV st) : INV (stepReferrers api today o r st).1 := by
  unfold stepReferrers
  cases hf : api.referrers o r with
  | error e => exact h
  | ok items =>
    exact ⟨h.1, h.2.1,
      collect_referrers_inv today o r items st.referrers st.kreferrers h.2.2.1,
      h.2.2.2.1, h.2.2.2.2⟩

theorem stepPaths_INV (api : Api) (today o r : String) (st : RunSt)
    (h : INV st) : INV (stepPaths api today o r st).1 := by
  unfold stepPaths
  cases hf : api.paths o r with
  | error e => exact h
  | ok items =>
    exact ⟨h.1, h.2.1, h.2.2.1,
      collect_paths_inv today o r items st.paths st.kpaths h.2.2.2.1,
      h.2.2.2.2⟩

theorem stepReleases_INV (api : Api) (today o r : String) (st : RunSt)
    (h : INV st) : INV (stepReleases api today o r st).1 := by
  unfold stepReleases
  cases hf : api.releases o r with
  | error e => exact h
  | ok items =>
    exact ⟨h.1, h.2.1, h.2.2.1, h.2.2.2.1,
      collect_releases_inv today o r items st.releases st.kreleases h.2.2.2.2⟩

theorem runRepo_INV (api : Api) (today o r : String) (st : RunSt)
    (h : INV st) : INV (runRepo api today o r st).1 := by
  simp only [runRepo]
  exact stepReleases_INV api today o r _ (stepPaths_INV api today o r _
    (stepReferrers_INV api today o r _ (stepClones_INV api o r _
      (stepViews_INV api o r st h))))

theorem stepViews_kcomplete (api : Api) (o r : String) (st : RunSt)
    (items : List TrafficItem) (h : api.views o r = .ok items) :
    ∀ v ∈ items, [strTake v.timestamp 10, o ++ "/" ++ r] ∈
      (stepViews api o r st).1.kviews := by
  unfold stepViews
  cases hf : api.views o r with
  | error e => rw [hf] at h; cases h
  | ok items2 =>
    rw [hf] at h
    injection h with h2
    subst h2
    exact collect_views_complete o r items2 st.views st.kviews

theorem stepClones_kcomplete (api : Api) (o r : String) (st : RunSt)
    (items : List TrafficItem) (h : api.clones o r = .ok items) :
    ∀ c ∈ items, [strTake c.timestamp 10, o ++ "/" ++ r] ∈
      (stepClones api o r st).1.kclones := by
  unfold stepClones
  cases hf : api.clones o r with
  | error e => rw [hf] at h; cases h
  | ok items2 =>
    rw [hf] at h
    injection h with h2
    subst h2
    exact collect_clones_complete o r items2 st.clones st.kclones

theorem stepReferrers_kcomplete (api : Api) (today o r : String) (st : RunSt)
    (items : List RefItem) (h : api.referrers o r = .ok items) :
    ∀ i ∈ items, [today, o ++ "/" ++ r, i.referrer] ∈
      (stepReferrers api today o r st).1.kreferrers := by
  unfold stepReferrers
  cases hf : api.referrers o r with
  | error e => rw [hf] at h; cases h
  | ok items2 =>
    rw [hf] at h
    injection h with h2
    subst h2
    exact collect_referrers_complete today o r items2 st.referrers st.kreferrers

theorem stepPaths_kcomplete (api : Api) (today o r : String) (st : RunSt)
    (items : List PathItem) (h : api.paths o r = .ok items) :
    ∀ p ∈ items, [today, o ++ "/" ++ r, p.path] ∈
      (stepPaths api today o r st).1.kpaths := by
  unfold stepPaths
  cases hf : api.paths o r with
  | error e => rw [hf] at h; cases h
  | ok items2 =>
    rw [hf] at h
    injection h with h2
    subst h2
    exact collect_paths_complete today o r items2 st.paths st.kpaths

theorem stepReleases_kcomplete (api : Api) (today o r : String) (st : RunSt)
    (rels : List Release) (h : api.releases o r = .ok rels) :
    ∀ rel ∈ rels, ∀ a ∈ rel.assets,
      [today, o ++ "/" ++ r, rel.tag_name, a.name] ∈
        (stepReleases api today o r st).1.kreleases := by
  unfold stepReleases
  cases hf : api.releases o r with
  | error e => rw [hf] at h; cases h
  | ok rels2 =>
    rw [hf] at h
    injection h with h2
    subst h2
    exact collect_releases_complete today o r rels2 st.releases st.kreleases

theorem runRepo_covered (api : Api) (today o r : String) (st : RunSt) :
    keysCovered api today o r (runRepo api today o r st).1 := by
  simp only [runRepo]
  refine ⟨?_, ?_, ?_, ?_, ?_⟩
  · intro items hf v hv
    have h1 := stepViews_kcomplete api o r st items hf v hv
    exact (stepReleases_keysLe api today o r _).1 _
      ((stepPaths_keysLe api today o r _).1 _
        ((stepReferrers_keysLe api today o r _).1 _
          ((stepClones_keysLe api o r _).1 _ h1)))
  · intro items hf c hc
    have h1 := stepClones_kcomplete api o r (stepViews api o r st).1
      items hf c hc
    exact (stepReleases_keysLe api today o r _).2.1 _
      ((stepPaths_keysLe api today o r _).2.1 _
        ((stepReferrers_keysLe api today o r _).2.1 _ h1))
  · intro items hf i hi
    have h1 := stepReferrers_kcomplete api today o r
      (stepClones api o r (stepViews api o r st).1).1 items hf i hi
    exact (stepReleases_keysLe api today o r _).2.2.1 _
      ((stepPaths_keysLe api today o r _).2.2.1 _ h1)
  · intro items hf p hp
    have h1 := stepPaths_kcomplete api today o r
      (stepReferrers api today o r
        (stepClones api o r (stepViews api o r st).1).1).1 items hf p hp
    exact (stepReleases_keysLe api today o r _).2.2.2.1 _ h1
  · intro rels hf rel hrel a ha
    exact stepReleases_kcomplete api today o r
      (stepPaths api today o r (stepReferrers api today o r
        (stepClones api o r (stepViews api o r st).1).1).1).1
      rels hf rel hrel a ha

theorem stepViews_noop (api : Api) (o r : String) (st : RunSt)
    (h : ∀ items, api.views o r = .ok items →
      ∀ v ∈ items, [strTake v.timestamp 10, o ++ "/" ++ r] ∈ st.kviews) :
    (stepViews api o r st).1 = st := by
  unfold stepViews
  cases hf : api.views o r with
  | error e => rfl
  | ok items =>
    simp only [hf]
    rw [collect_views_noop o r items st.views st.kviews (h items hf)]

theorem stepClones_noop (api : Api) (o r : String) (st : RunSt)
    (h : ∀ items, api.clones o r = .ok items →
      ∀ c ∈ items, [strTake c.timestamp 10, o ++ "/" ++ r] ∈ st.kclones) :
    (stepClones api o r st).1 = st := by
  unfold stepClones
  cases hf : api.clones o r with
  | error e => rfl
  | ok items =>
    simp only [hf]
    rw [collect_clones_noop o r items st.clones st.kclones (h items hf)]

theorem stepReferrers_noop (api : Api) (today o r : String) (st : RunSt)
    (h : ∀ items, api.referrers o r = .ok items →
      ∀ i ∈ items, [today, o ++ "/" ++ r, i.referrer] ∈ st.kreferrers) :
    (stepReferrers api today o r st).1 = st := by
  unfold stepReferrers
  cases hf : api.referrers o r with
  | error e => rfl
  | ok items =>
    simp only [hf]
    rw [collect_referrers_noop today o r items st.referrers st.kreferrers
      (h items hf)]

theorem stepPaths_noop (api : Api) (today o r : String) (st : RunSt)
    (h : ∀ items, api.paths o r = .ok items →
      ∀ p ∈ items, [today, o ++ "/" ++ r, p.path] ∈ st.kpaths) :
    (stepPaths api today o r st).1 = st := by
  unfold stepPaths
  cases hf : api.paths o r with
  | error e => rfl
  | ok items =>
    simp only [hf]
    rw [collect_paths_noop today o r items st.paths st.kpaths (h items hf)]

theorem stepReleases_noop (api : Api) (today o r : String) (st : RunSt)
    (h : ∀ rels, api.releases o r = .ok rels →
      ∀ rel ∈ rels, ∀ a ∈ rel.assets,
        [today, o ++ "/" ++ r, rel.tag_name, a.name] ∈ st.kreleases) :
    (stepReleases api today o r st).1 = st := by
  unfold stepReleases
  cases hf : api.releases o r with
  | error e => rfl
  | ok rels =>
    simp only [hf]
    rw [collect_releases_noop today o r rels st.releases st.kreleases
      (h rels hf)]

theorem runRepo_noop (api : Api) (today o r : String) (st : RunSt)
    (h : keysCovered api today o r st) :
    (runRepo api today o r st).1 = st := by
  simp only [runRepo]
  rw [stepViews_noop api o r st h.1, stepClones_noop api o r st h.2.1,
    stepReferrers_noop api today o r st h.2.2.1,
    stepPaths_noop api today o r st h.2.2.2.1,
    stepReleases_noop api today o r st h.2.2.2.2]

theorem initRun_INV (st : Stats) : INV (initRun st) :=
  ⟨fun _ => Iff.rfl, fun _ => Iff.rfl, fun _ => Iff.rfl, fun _ => Iff.rfl,
    fun _ => Iff.rfl⟩

theorem processReposSt_INV (api : Api) (today : String) :
    ∀ (repos : List String) (rs rs1 : RunSt), INV rs →
      processReposSt api today repos rs = .ok rs1 → INV rs1 := by
  intro repos
  induction repos with
  | nil =>
    intro rs rs1 h heq
    injection heq with h2
    exact h2 ▸ h
  | cons raw rest ih =>
    intro rs rs1 h heq
    simp only [processReposSt] at heq
    cases hp : parseRepoPair raw with
    | none => rw [hp] at heq; cases heq
    | some pr =>
      obtain ⟨o, r⟩ := pr
      rw [hp] at heq
      exact ih _ rs1 (runRepo_INV api today o r rs h) heq

theorem processReposSt_keysLe (api : Api) (today : String) :
    ∀ (repos : List String) (rs rs1 : RunSt),
      processReposSt api today repos rs = .ok rs1 → keysLe rs rs1 := by
  intro repos
  induction repos with
  | nil =>
    intro rs rs1 heq
    injection heq with h2
    exact h2 ▸ keysLe_refl rs
  | cons raw rest ih =>
    intro rs rs1 heq
    simp only [processReposSt] at heq
    cases hp : parseRepoPair raw with
    | none => rw [hp] at heq; cases heq
    | some pr =>
      obtain ⟨o, r⟩ := pr
      rw [hp] at heq
      exact keysLe_trans (runRepo_keysLe api today o r rs) (ih _ rs1 heq)

theorem processReposSt_covered (api : Api) (today : String) :
    ∀ (repos : List String) (rs rs1 : RunSt),
      processReposSt api today repos rs = .ok rs1 →
      ∀ raw ∈ repos, ∀ o r, parseRepoPair raw = some (o, r) →
        keysCovered api today o r rs1 := by
  intro repos
  induction repos with
  | nil => intro rs rs1 _ raw hraw; simp at hraw
  | cons raw0 rest ih =>
    intro rs rs1 heq raw hraw o r hpr
    simp only [processReposSt] at heq
    cases hp : parseRepoPair raw0 with
    | none => rw [hp] at heq; cases heq
    | some pr =>
      obtain ⟨o0, r0⟩ := pr
      rw [hp] at heq
      rcases List.mem_cons.mp hraw with rfl | hmem
      · rw [hp] at hpr
        injection hpr with h2
        obtain ⟨rfl, rfl⟩ := Prod.mk.injEq .. ▸ h2
        exact keysCovered_mono (processReposSt_keysLe api today rest _ rs1 heq)
          (runRepo_covered api today o0 r0 rs)
      · exact ih _ rs1 heq raw hmem o r hpr

theorem processReposSt_parses (api : Api) (today : String) :
    ∀ (repos : List String) (rs rs1 : RunSt),
      processReposSt api today repos rs = .ok rs1 →
      ∀ raw ∈ repos, (parseRepoPair raw).isSome := by
  intro repos
  induction repos with
  | nil => intro rs rs1 _ raw hraw; simp at hraw
  | cons raw0 rest ih =>
    intro rs rs1 heq raw hraw
    simp only [processReposSt] at heq
    cases hp : parseRepoPair raw0 with
    | none => rw [hp] at heq; cases heq
    | some pr =>
      obtain ⟨o, r⟩ := pr
      rw [hp] at heq
      rcases List.mem_cons.mp hraw with rfl | hmem
      · rw [hp]; rfl
      · exact ih _ rs1 heq raw hmem

theorem processReposSt_noop (api : Api) (today : String) :
    ∀ (repos : List String) (rs : RunSt),
      (∀ raw ∈ repos, ∀ o r, parseRepoPair raw = some (o, r) →
        keysCovered api today o r rs) →
      (∀ raw ∈ repos, (parseRepoPair raw).isSome) →
      processReposSt api today repos rs = .ok rs := by
  intro repos
  induction repos with
  | nil => intro rs _ _; rfl
  | cons raw rest ih =>
    intro rs hcov hparse
    simp only [processReposSt]
    cases hp : parseRepoPair raw with
    | none =>
      have := hparse raw (List.mem_cons_self _ _)
      rw [hp] at this
      cases this
    | some pr =>
      obtain ⟨o, r⟩ := pr
      show processReposSt api today rest (runRepo api today o r rs).1 = .ok rs
      rw [runRepo_noop api today o r rs
        (hcov raw (List.mem_cons_self _ _) o r hp)]
      exact ih rs
        (fun x hx o2 r2 hp2 => hcov x (List.mem_cons_of_mem _ hx) o2 r2 hp2)
        (fun x hx => hparse x (List.mem_cons_of_mem _ hx))

/-- C2: running the full collection-and-aggregation pass a second time, with
the same upstream responses and the same UTC date, starting from the state
the first pass produced, changes nothing: no raw table gains a row and the
regenerated summary, monthly and JSON outputs are identical (in particular
identical except for the generated date, which is the same date here). -/
theorem main_idempotent (api : Api) (today : String) (repos : List String)
    (st0 st1 : Stats) (log1 : List String)
    (h : main api today repos st0 = .ok (st1, log1)) :
    ∃ log2, main api today repos st1 = .ok (st1, log2) := by
  unfold main at h
  cases hP : processRepos api today repos (initRun st0) with
  | error e => rw [hP] at h; cases h
  | ok p =>
    rw [hP] at h
    injection h with h2
    have hst1 : st1 = buildStats today p.1 := (congrArg Prod.fst h2).symm
    have hSt : processReposSt api today repos (initRun st0) = .ok p.1 := by
      rw [← processRepos_map_fst, hP]
      rfl
    have hInv1 : INV p.1 :=
      processReposSt_INV api today repos _ p.1 (initRun_INV st0) hSt
    have hcov := processReposSt_covered api today repos _ p.1 hSt
    have hparse := processReposSt_parses api today repos _ p.1 hSt
    subst hst1
    have hcov2 : ∀ raw ∈ repos, ∀ o r, parseRepoPair raw = some (o, r) →
        keysCovered api today o r (initRun (buildStats today p.1)) := by
      intro raw hraw o r hpr
      have hc := hcov raw hraw o r hpr
      refine ⟨?_, ?_, ?_, ?_, ?_⟩
      · intro items hf v hv
        exact (hInv1.1 _).mp (hc.1 items hf v hv)
      · intro items hf c hcm
        exact (hInv1.2.1 _).mp (hc.2.1 items hf c hcm)
      · intro items hf i hi
        exact (hInv1.2.2.1 _).mp (hc.2.2.1 items hf i hi)
      · intro items hf q hq
        exact (hInv1.2.2.2.1 _).mp (hc.2.2.2.1 items hf q hq)
      · intro rels hf rel hrel a ha
        exact (hInv1.2.2.2.2 _).mp (hc.2.2.2.2 rels hf rel hrel a ha)
    have hnoop : processReposSt api today repos
        (initRun (buildStats today p.1)) = .ok (initRun (buildStats today p.1)) :=
      processReposSt_noop api today repos _ hcov2 hparse
    have hmap : (processRepos api today repos
        (initRun (buildStats today p.1))).map Prod.fst =
        .ok (initRun (buildStats today p.1)) := by
      rw [processRepos_map_fst]
      exact hnoop
    cases hQ : processRepos api today repos (initRun (buildStats today p.1)) with
    | error e =>
      rw [hQ] at hmap
      simp [Except.map] at hmap
    | ok q =>
      rw [hQ] at hmap
      simp only [Except.map] at hmap
      injection hmap with h3
      refine ⟨q.2, ?_⟩
      unfold main
      rw [hQ]
      show Except.ok (buildStats today q.1, q.2) =
        Except.ok (buildStats today p.1, q.2)
      rw [h3]
      rfl

/-- Concrete API used to witness idempotence: one views bucket, a failing
clones endpoint, one referrer, no paths, one release asset. -/
def apiW : Api :=
  { views := fun _ _ => .ok [⟨"2025-10-11T00:00:00Z", 5, 2⟩]
    clones := fun _ _ => .error "boom"
    referrers := fun _ _ => .ok [⟨"news.ycombinator.com", 7, 3⟩]
    paths := fun _ _ => .ok []
    releases := fun _ _ => .ok [⟨"v1.0", [⟨"app.zip", 42⟩]⟩] }

/-- State after the first pass of `apiW` over `["o/r"]` from empty tables. -/
def st1W : Stats :=
  { views := some [⟨"2025-10-11", "o/r", 5, 2⟩]
    clones := none
    referrers := some [⟨"2025-10-12", "o/r", "news.ycombinator.com", 7, 3⟩]
    paths := none
    releases := some [⟨"2025-10-12", "o/r", "v1.0", "app.zip", 42⟩]
    summary := some [⟨"o/r", 5, 2, 0, 0, 42, "2025-10-12"⟩]
    monthly := some [⟨"o/r", "2025-10", 5, 2, 0, 0, 42⟩]
    sjson := some
      { generated := "2025-10-12"
        repos := [("o/r",
          { total_views := 5
            total_unique_visitors := 2
            total_clones := 0
            total_unique_cloners := 0
            total_downloads := 42
            daily_views := [⟨"2025-10-11", 5, 2⟩]
            daily_clones := []
            monthly := [⟨"2025-10", 5, 0, 42⟩] })] } }

theorem main_idempotent_witness :
    ∃ log2, main apiW "2025-10-12" ["o/r"] st1W = .ok (st1W, log2) :=
  main_idempotent apiW "2025-10-12" ["o/r"]
    ⟨none, none, none, none, none, none, none, none⟩ st1W
    ["Processing o/r...", "  Views: 1 new records", "  Clones: SKIP - boom",
      "  Referrers: 1 new records", "  Paths: 0 new records",
      "  Releases: 1 new records"]
    (by rfl)

end TrafficCollector
